import Mathlib

/-!
Shallow embedding of the Battlesnake decision engine in `src/main.go`
(the most-evolved iteration of the program; `src/unnamed/part_000` is an
earlier iteration of the same file).  Pure data is translated directly;
the board grid is a total function from coordinates to cells; the Go
panic paths that the claims probe (indexing an empty food registry,
`moves[least]` with `least = -1`, overflowing the fixed `spaces [4]`
array) are modelled by `Option`, with `none` standing for the panic.
The flood-fill work loop (`MapSpace`) is embedded with explicit fuel;
the fuel bound `5*w*h + 2` is proved sufficient below, which is the
termination argument of the Go `for top >= 0` loop.
-/

set_option linter.unusedVariables false

namespace SpaceySnake

/-- Integer grid coordinate (Go struct `Coord`, `main.go:19`). -/
structure Coord where
  x : Int
  y : Int
deriving DecidableEq, Repr, Inhabited

/-- Absolute value on `Int` (Go `Abs`, `main.go:79`). -/
def Abs (x : Int) : Int := if x < 0 then -x else x

/-- Manhattan distance between two cells (Go `ManDist`, `main.go:88`). -/
def ManDist (a b : Coord) : Int := Abs (a.x - b.x) + Abs (a.y - b.y)

/-- A grid cell: numerically packed content (0 = empty, 1 = food,
`(s+1)*3 + {0,1,2}` = body/head/tail of snake `s`) plus the transient
flood-fill region tag (Go struct `GameCell`, `main.go:139`).  The Go
field is a `uint16`; contents stay below `2^16` for any realistic snake
count, so `Nat` is used. -/
structure GameCell where
  content : Nat
  space : Nat
deriving DecidableEq, Repr, Inhabited

/-- Go `GameCell.IsEmpty` (`main.go:144`). -/
def GameCell.isEmpty (c : GameCell) : Bool := c.content == 0

/-- Go `GameCell.IsFood` (`main.go:148`). -/
def GameCell.isFood (c : GameCell) : Bool := c.content == 1

/-- Go `GameCell.IsBody` (`main.go:152`). -/
def GameCell.isBody (c : GameCell) : Bool := 2 < c.content && c.content % 3 == 0

/-- Go `GameCell.IsHead` (`main.go:156`). -/
def GameCell.isHead (c : GameCell) : Bool := 2 < c.content && c.content % 3 == 1

/-- Go `GameCell.IsTail` (`main.go:160`). -/
def GameCell.isTail (c : GameCell) : Bool := 2 < c.content && c.content % 3 == 2

/-- Go `GameCell.IsSelf` (`main.go:164`). -/
def GameCell.isSelf (c : GameCell) : Bool := 2 < c.content && c.content / 3 == 1

/-- Go `GameCell.SnakeNo` (`main.go:168`). -/
def GameCell.snakeNo (c : GameCell) : Nat := c.content / 3 - 1

/-- Go `FoodCell` (`main.go:172`). -/
def FoodCell : GameCell := ⟨1, 0⟩

/-- Go `BodyCell` (`main.go:176`). -/
def BodyCell (s : Nat) : GameCell := ⟨(s + 1) * 3, 0⟩

/-- Go `HeadCell` (`main.go:182`). -/
def HeadCell (s : Nat) : GameCell := ⟨(s + 1) * 3 + 1, 0⟩

/-- Go `TailCell` (`main.go:188`). -/
def TailCell (s : Nat) : GameCell := ⟨(s + 1) * 3 + 2, 0⟩

/-- The occupancy grid, embedded as a total function (the Go `[][]GameCell`
array; all accesses in the program are within `[0,w) x [0,h)`). -/
abbrev Grid := Coord → GameCell

/-- Write one cell of the grid. -/
def gridSet (g : Grid) (c : Coord) (v : GameCell) : Grid :=
  fun q => if q = c then v else g q

/-- The all-empty grid built by `Initialize` (`main.go:359`). -/
def emptyGrid : Grid := fun _ => ⟨0, 0⟩

/-- Per-snake registry entry (Go struct `SnakeState`, `main.go:201`). -/
structure SnakeState where
  id : String
  head : Coord
  tail : Coord
  length : Nat
  segments : List Coord
  dist : Int
  growing : Bool
deriving DecidableEq, Repr, Inhabited

/-- Per-region record (Go struct `SpaceState`, `main.go:220`). -/
structure SpaceState where
  size : Nat
  snakes : List Bool
  nsnakes : Nat
  self : Bool
  nfood : Nat
deriving DecidableEq, Repr, Inhabited

/-- Per-food registry entry (Go struct `FoodState`, `main.go:235`). -/
structure FoodState where
  pos : Coord
  dist : Int
  closerSnakes : Nat
deriving DecidableEq, Repr, Inhabited

/-- The aggregated game state (Go struct `GameState`, `main.go:247`).
The Go `spaces [4]SpaceState` fixed array is a list of length 4; the
index bound is enforced explicitly where the Go code indexes it. -/
structure GameState where
  turn : Nat
  h : Nat
  w : Nat
  grid : Grid
  snakes : List SnakeState
  food : List FoodState
  spaces : List SpaceState
deriving Inhabited

/-- The four clipped neighbours of a cell, visited in the fixed order
left, right, up, down (Go `VisitNeighbours`, `main.go:291`). -/
def visitNeighbours (w h : Nat) (c : Coord) : List (Coord × String) :=
  (if 0 ≤ c.x - 1 then [(⟨c.x - 1, c.y⟩, "left")] else []) ++
  (if c.x + 1 < (w : Int) then [(⟨c.x + 1, c.y⟩, "right")] else []) ++
  (if 0 ≤ c.y - 1 then [(⟨c.x, c.y - 1⟩, "up")] else []) ++
  (if c.y + 1 < (h : Int) then [(⟨c.x, c.y + 1⟩, "down")] else [])

/-- A cell the flood fill pushes: empty, food or tail content
(`main.go:333`).  Depends only on the cell's content, never on its
region tag, so it is stable under tagging. -/
def floodable (g : Grid) (z : Coord) : Bool :=
  (g z).isEmpty || (g z).isFood || (g z).isTail

/-- The per-neighbour body of the flood fill's `VisitNeighbours`
closure (`main.go:332-339`): a neighbour that is empty, food or a tail
is pushed on the work stack; a body or head neighbour records its snake
index in the region's boundary set. -/
def floodStep (g : Grid) (acc : List Coord × SpaceState) (nb : Coord × String) :
    List Coord × SpaceState :=
  if floodable g nb.1 then (nb.1 :: acc.1, acc.2)
  else if (g nb.1).isBody || (g nb.1).isHead then
    (acc.1, { acc.2 with snakes := acc.2.snakes.set (g nb.1).snakeNo true })
  else acc

/-- One `VisitNeighbours` pass of the flood fill (`main.go:332-339`). -/
def floodVisit (g : Grid) (w h : Nat) (p : Coord) (stack : List Coord)
    (sp : SpaceState) : List Coord × SpaceState :=
  (visitNeighbours w h p).foldl (floodStep g) (stack, sp)

/-- Result of one flood fill: the retagged grid, the region record, the
cell count and (ghost instrumentation, not in the Go code) the largest
work-stack length reached, used to state the work-list bound. -/
structure FloodResult where
  grid : Grid
  sp : SpaceState
  count : Nat
  maxLen : Nat
deriving Inhabited

/-- The `for top >= 0` work loop of `MapSpace` (`main.go:321-341`),
embedded with fuel; `none` models a non-terminating fuel shortfall and
is proved unreachable for the fuel used by `MapSpace`. -/
def floodGo (w h space : Nat) :
    Nat → Grid → SpaceState → List Coord → Nat → Nat → Option FloodResult
  | _, g, sp, [], count, maxLen => some ⟨g, sp, count, maxLen⟩
  | 0, _, _, _ :: _, _, _ => none
  | fuel + 1, g, sp, p :: rest, count, maxLen =>
    let pcell := g p
    if pcell.space ≠ 0 then
      floodGo w h space fuel g sp rest count maxLen
    else
      let g' := gridSet g p ⟨pcell.content, space⟩
      let sp1 := if pcell.isFood then { sp with nfood := sp.nfood + 1 } else sp
      let st := floodVisit g' w h p rest sp1
      floodGo w h space fuel g' st.2 st.1 (count + 1) (max maxLen st.1.length)

/-- The fuel given to the flood loop; proved sufficient below. -/
def floodFuel (w h : Nat) : Nat := 5 * (w * h) + 2

/-- Go `MapSpace` (`main.go:313`): flood fill from `c`, tagging reached
cells with region id `space`, returning the updated grid, the region's
boundary record and the cell count. -/
def MapSpace (s : GameState) (c : Coord) (space : Nat) :
    Option (Grid × SpaceState × Nat) :=
  let sp0 : SpaceState := ⟨0, List.replicate (s.snakes.length + 1) false, 0, false, 0⟩
  match floodGo s.w s.h space (floodFuel s.w s.h) s.grid sp0 [c] 0 1 with
  | some r => some (r.grid, r.sp, r.count)
  | none => none

/-- The flood-fill run underlying `MapSpace`, with the ghost maximum
work-stack length kept (the Go `top` index reached plus one, against
the `make([]Coord, s.h * s.w * 4)` allocation at `main.go:314`). -/
def MapSpaceRun (s : GameState) (c : Coord) (space : Nat) : Option FloodResult :=
  floodGo s.w s.h space (floodFuel s.w s.h) s.grid
    ⟨0, List.replicate (s.snakes.length + 1) false, 0, false, 0⟩ [c] 0 1

/-- A raw snake from the request payload (Go struct `Snake`, `main.go:24`). -/
structure RawSnake where
  id : String
  health : Int
  body : List Coord
deriving DecidableEq, Repr, Inhabited

/-- A raw board from the request payload (Go struct `Board`, `main.go:35`). -/
structure RawBoard where
  height : Nat
  width : Nat
  food : List Coord
  snakes : List RawSnake
deriving DecidableEq, Repr, Inhabited

/-- First-occurrence de-duplication of a coordinate list, as done with
the `smap`/`fmap` maps in `Initialize` (`main.go:381-386,423-426`). -/
def dedup (l : List Coord) : List Coord :=
  l.foldl (fun acc c => if c ∈ acc then acc else acc ++ [c]) []

/-- Insert into a sorted list, before the first strictly-greater element
(the effect of Go `sort.Slice` with a strict less; ties keep input
order). -/
def insertSorted (lt : α → α → Bool) (a : α) : List α → List α
  | [] => [a]
  | b :: l => if lt a b then a :: b :: l else b :: insertSorted lt a l

/-- Insertion sort used to embed `sort.Slice` (`main.go:400,446`). -/
def sortByLt (lt : α → α → Bool) (l : List α) : List α :=
  l.foldr (insertSorted lt) []

/-- Build one registry entry from a raw snake (`main.go:376-396`):
de-duplicated segments, length after de-duplication, head = first and
tail = last de-duplicated segment, distance from our head, growing when
the turn is below 2 or the head sits on a previous-turn food cell. -/
def mkSnakeState (t : Nat) (prevFood : List Coord) (myHead : Coord)
    (sn : RawSnake) : SnakeState :=
  let segs := dedup sn.body
  let hd := segs.headD ⟨0, 0⟩
  { id := sn.id, head := hd, tail := segs.getLastD ⟨0, 0⟩,
    length := segs.length, segments := segs, dist := ManDist hd myHead,
    growing := decide (t < 2) || decide (hd ∈ prevFood) }

/-- Write every snake into the grid (`main.go:405-411`): all segments as
body cells, then the head and tail cells on top, in registry order. -/
def writeSnakes : List SnakeState → Nat → Grid → Grid
  | [], _, g => g
  | sn :: rest, sx, g =>
    let g1 := sn.segments.foldl (fun acc seg => gridSet acc seg (BodyCell sx)) g
    let g2 := gridSet g1 sn.head (HeadCell sx)
    let g3 := gridSet g2 sn.tail (TailCell sx)
    writeSnakes rest (sx + 1) g3

/-- Build the food registry (`main.go:421-443`): de-duplicated food
positions with distance from our head and the count of snakes strictly
closer to the food than we are. -/
def mkFoodStates (myHead : Coord) (snakes : List SnakeState) (l : List Coord) :
    List FoodState :=
  (dedup l).map (fun f =>
    let d := ManDist f myHead
    { pos := f, dist := d,
      closerSnakes := (snakes.filter (fun sn => ManDist sn.head f < d)).length })

/-- Write the food cells into the grid (`main.go:428`). -/
def writeFood (g : Grid) (l : List Coord) : Grid :=
  l.foldl (fun acc f => gridSet acc f FoodCell) g

/-- The state built by `Initialize` (`main.go:352-454`) once the head
is known: the snake registry sorted by distance from our head (our
snake first), the grid with snakes written then food written on top,
and the food registry sorted by distance. -/
def builtState (t : Nat) (b : RawBoard) (myHead : Coord) (prevFood : List Coord) :
    GameState :=
  let snakes := sortByLt (fun a b => decide (a.dist < b.dist))
    (b.snakes.map (mkSnakeState t prevFood myHead))
  let g1 := writeSnakes snakes 0 emptyGrid
  let food := sortByLt (fun a b => decide (a.dist < b.dist))
    (mkFoodStates myHead snakes b.food)
  let g2 := writeFood g1 (dedup b.food)
  { turn := t, h := b.height, w := b.width, grid := g2,
    snakes := snakes, food := food,
    spaces := List.replicate 4 ⟨0, [], 0, false, 0⟩ }

/-- Go `Initialize` (`main.go:352-454`).  `none` models the Go panic on
an empty body (`y.Body[0]` / `segments[0]`).  The previous-turn food
set read from the per-game context cache is passed in as `prevFood`. -/
def Initialize (t : Nat) (b : RawBoard) (y : RawSnake) (prevFood : List Coord) :
    Option GameState :=
  match y.body with
  | [] => none
  | myHead :: _ =>
    if b.snakes.any (fun sn => sn.body.isEmpty) then none
    else some (builtState t b myHead prevFood)

/-- A candidate move (Go local struct `MoveType`, `main.go:505`). -/
structure MoveType where
  dir : String
  c : Coord
  nlonger : Nat
  alternate : Nat
  nshorter : Nat
  space : Nat
  smallSpace : Bool
deriving DecidableEq, Repr, Inhabited

/-- A head neighbour is blocked when it is a body cell, a head cell, or
the tail cell of a currently-growing snake (`main.go:517-518`). -/
def isBlocked (s : GameState) (c : Coord) : Bool :=
  let cell := s.grid c
  cell.isBody || cell.isHead ||
    (cell.isTail && (s.snakes.getD cell.snakeNo default).growing)

/-- Stage-1 candidate enumeration (`main.go:516-529`): the unblocked
neighbours of our head, in visit order. -/
def candidateMoves (s : GameState) (myHead : Coord) : List MoveType :=
  (visitNeighbours s.w s.h myHead).filterMap (fun nb =>
    if isBlocked s nb.1 then none
    else some { dir := nb.2, c := nb.1, nlonger := 0, alternate := 0,
                nshorter := 0, space := 0, smallSpace := false })

/-- Count the escape alternatives of a threatening enemy head
(`main.go:558-566`): neighbours of the enemy head other than the
candidate cell that are not body or head cells; a food alternative
counts 4 extra. -/
def alternateCount (s : GameState) (moveC enemyHead : Coord) : Nat :=
  (visitNeighbours s.w s.h enemyHead).foldl
    (fun acc nn =>
      let cell := s.grid nn.1
      if nn.1 != moveC && !cell.isBody && !cell.isHead then
        acc + 1 + (if cell.isFood then 4 else 0)
      else acc) 0

/-- The per-neighbour body of the Stage-2 threat scan
(`main.go:553-571`): an adjacent enemy head counts as `nlonger` (with
its escape alternatives) when its snake is at least our length, as
`nshorter` otherwise. -/
def threatStep (s : GameState) (myHead mc : Coord) (myLength : Nat)
    (mv : MoveType) (nb : Coord × String) : MoveType :=
  if (s.grid nb.1).isHead && nb.1 != myHead then
    if myLength ≤ (s.snakes.getD (s.grid nb.1).snakeNo default).length then
      { mv with nlonger := mv.nlonger + 1,
                alternate := mv.alternate + alternateCount s mc nb.1 }
    else { mv with nshorter := mv.nshorter + 1 }
  else mv

/-- Stage-2 threat annotation of one candidate (`main.go:549-574`):
count adjacent enemy heads of longer-or-equal snakes (`nlonger`, with
their escape alternatives) and of strictly shorter snakes (`nshorter`). -/
def annotateThreat (s : GameState) (myHead : Coord) (myLength : Nat)
    (m : MoveType) : MoveType :=
  (visitNeighbours s.w s.h m.c).foldl (threatStep s myHead m.c myLength) m

/-- The region-mapping loop over the candidates (`main.go:611-633`):
reuse an existing tag, else run `MapSpace` with the next fresh id and
record the region's size, bounding-snake count and self-boundedness.
`none` models the Go index panic on `spaces[4]` (at most 3 fresh
regions fit the `spaces [4]` array whose index 0 is never used). -/
def mapStage : GameState → List MoveType → Nat → List MoveType →
    Option (GameState × List MoveType)
  | s, [], _, acc => some (s, acc.reverse)
  | s, m :: rest, nspaces, acc =>
    let tag := (s.grid m.c).space
    if 0 < tag then
      mapStage s rest nspaces ({ m with space := tag } :: acc)
    else
      let nspaces' := nspaces + 1
      if 4 ≤ nspaces' then none
      else
        match MapSpace s m.c nspaces' with
        | none => none
        | some r =>
          let spBase := r.2.1
          let cnt := r.2.2
          let nsnakes := (spBase.snakes.filter (fun b => b)).length
          let sp' := { spBase with
            size := cnt, nsnakes := nsnakes,
            self := nsnakes == 1 && spBase.snakes.headD false }
          mapStage { s with grid := r.1, spaces := s.spaces.set nspaces' sp' }
            rest nspaces' ({ m with space := nspaces' } :: acc)

/-- Stage-3 space-sufficiency marking (`main.go:644-664`): a candidate
not threatened by a longer snake is marked `smallSpace` when its region
holds fewer cells than our length; the returned flag is the Go
`allSmallSpaces` (true when no unthreatened candidate had enough room). -/
def markSmall (s : GameState) (myLength : Nat) :
    List MoveType → Bool → List MoveType × Bool
  | [], allSmall => ([], allSmall)
  | m :: rest, allSmall =>
    if 0 < m.nlonger then
      let r := markSmall s myLength rest allSmall
      (m :: r.1, r.2)
    else
      let space := (s.grid m.c).space
      if (s.spaces.getD space default).size < myLength then
        let r := markSmall s myLength rest allSmall
        ({ m with smallSpace := true } :: r.1, r.2)
      else
        let r := markSmall s myLength rest false
        (m :: r.1, r.2)

/-- The region size recorded for a move's region id. -/
def spaceSizeOf (s : GameState) (m : MoveType) : Nat :=
  (s.spaces.getD m.space default).size

/-- The all-small fallback (`main.go:714-719`): first candidate with the
strictly largest region size. -/
def largestMove (s : GameState) (m0 : MoveType) (moves : List MoveType) :
    MoveType :=
  moves.foldl
    (fun best mv => if spaceSizeOf s best < spaceSizeOf s mv then mv else best) m0

/-- The all-threatened fallback (`main.go:743-749`): candidate with the
fewest adjacent longer heads, ties broken by more enemy alternatives. -/
def bestThreatened (m0 : MoveType) (moves : List MoveType) : MoveType :=
  moves.foldl
    (fun best mv =>
      if mv.nlonger < best.nlonger ||
         (mv.nlonger == best.nlonger && best.alternate < mv.alternate) then mv
      else best) m0

/-- First food item giving progress from `c` and not contested
(`main.go:769-775`): closer from `c` than from our head, and either
fewer than three snakes are on the board or no snake is closer to it. -/
def foodProgress1 (s : GameState) (c : Coord) : Option Int :=
  s.food.findSome? (fun f =>
    let mdist := ManDist c f.pos
    if mdist < f.dist ∧ (s.snakes.length < 3 ∨ f.closerSnakes = 0) then some mdist
    else none)

/-- First food item giving progress from `c`, contested or not
(`main.go:777-785`). -/
def foodProgress2 (s : GameState) (c : Coord) : Option Int :=
  s.food.findSome? (fun f =>
    let mdist := ManDist c f.pos
    if mdist < f.dist then some mdist else none)

/-- The food-progress distance of a candidate (`main.go:768-785`):
`h + w` when no food item is closer from the candidate than from our
head. -/
def computeDist (s : GameState) (c : Coord) : Int :=
  let base : Int := (s.h : Int) + (s.w : Int)
  let d1 := (foodProgress1 s c).getD base
  if d1 = base then (foodProgress2 s c).getD base else d1

/-- The final decision loop of `FindMove` (`main.go:697-794`), with the
accumulator `least` holding the best food-progress candidate so far.
`none` at the end with an empty accumulator models the Go panic at
`moves[least]` with `least = -1`. -/
def chooseGo (s : GameState) (moves : List MoveType) (allLonger allSmall : Bool) :
    List MoveType → Option (String × Int) → Option String
  | [], none => none
  | [], some best => some best.1
  | m :: rest, least =>
    if m.smallSpace then
      if moves.length == 1 then some m.dir
      else if allSmall then
        some (match moves with
              | [] => m.dir
              | m0 :: ms => (largestMove s m0 ms).dir)
      else chooseGo s moves allLonger allSmall rest least
    else if 0 < m.nlonger then
      if moves.length == 1 then some m.dir
      else if allLonger then
        some (match moves with
              | [] => m.dir
              | m0 :: ms => (bestThreatened m0 ms).dir)
      else chooseGo s moves allLonger allSmall rest least
    else if (s.grid m.c).isFood then some m.dir
    else if 0 < m.nshorter then some m.dir
    else
      let dist := computeDist s m.c
      match least with
      | none => chooseGo s moves allLonger allSmall rest (some (m.dir, dist))
      | some best =>
        if dist < best.2 then chooseGo s moves allLonger allSmall rest (some (m.dir, dist))
        else chooseGo s moves allLonger allSmall rest least

/-- The turn-0 opening direction (`main.go:495-500`): fixed axis
priority toward the nearest food. -/
def turnZeroDir (f0 myHead : Coord) : String :=
  if f0.x < myHead.x then "left"
  else if myHead.x < f0.x then "right"
  else if f0.y < myHead.y then "up"
  else "down"

/-- The turn >= 1 tactical pipeline of `FindMove` (`main.go:503-794`):
candidate enumeration, threat annotation, region mapping, small-space
marking and the final decision loop. -/
def findMoveTurn (s : GameState) (myHead : Coord) (myLength : Nat) : Option String :=
  let moves1 := (candidateMoves s myHead).map (annotateThreat s myHead myLength)
  let allLonger := moves1.all (fun m => !(m.nlonger == 0))
  match mapStage s moves1 0 [] with
  | none => none
  | some sm =>
    let ms := markSmall sm.1 myLength sm.2 true
    chooseGo sm.1 ms.1 allLonger ms.2 ms.1 none

/-- `FindMove` once our registry entry is at hand (`main.go:485-501`):
the turn-0 special case reads the nearest food unconditionally
(`s.food[0]`, `main.go:493`; `none` models the panic on an empty list),
every later turn runs the tactical pipeline. -/
def findMoveOwn (t : Nat) (s : GameState) (own : SnakeState) : Option String :=
  if t = 0 then
    match s.food with
    | [] => none
    | f0 :: _ => some (turnZeroDir f0.pos own.head)
  else findMoveTurn s own.head own.length

/-- `FindMove` after `Initialize` (`main.go:483-485`): `s.snakes[0]` is
our own entry; `none` models the index panic on an empty registry. -/
def findMoveAfter (t : Nat) (s : GameState) : Option String :=
  match s.snakes with
  | [] => none
  | own :: _ => findMoveOwn t s own

/-- Go `FindMove` (`main.go:462-795`): the full per-turn decision.
`none` stands for the Go panics: empty own body or registry, the
turn-0 read of `s.food[0]` on an empty food list, the `spaces[4]`
overflow, and `moves[least]` with `least = -1`. -/
def FindMove (t : Nat) (b : RawBoard) (y : RawSnake) (prevFood : List Coord) :
    Option String :=
  match Initialize t b y prevFood with
  | none => none
  | some s => findMoveAfter t s

/-! ## Concrete snapshots used as counterexamples, failing inputs and
witnesses.  Coordinates are `(x, y)` with `x` growing rightwards and
`y` growing downwards, as in the Go code. -/

/-- Own snake of length 9 coiled over the whole 3x3 board, head at the
centre: every neighbour of the head is one of its own body cells. -/
def youC1 : RawSnake :=
  ⟨"me", 90, [⟨1,1⟩, ⟨1,0⟩, ⟨0,0⟩, ⟨0,1⟩, ⟨0,2⟩, ⟨1,2⟩, ⟨2,2⟩, ⟨2,1⟩, ⟨2,0⟩]⟩

/-- 3x3 board holding only `youC1`, no food. -/
def boardC1 : RawBoard := ⟨3, 3, [], [youC1]⟩

/-- Own snake head `(0,0)`, tail `(0,1)`, on turn 1 (so it is growing). -/
def youC2 : RawSnake := ⟨"me", 100, [⟨0,0⟩, ⟨0,1⟩]⟩

/-- 3x3 board holding only `youC2`. -/
def boardC2 : RawBoard := ⟨3, 3, [], [youC2]⟩

/-- Own snake of length 8, head `(2,2)`, walling off the pocket `(2,1)`. -/
def youC5 : RawSnake :=
  ⟨"me", 50, [⟨2,2⟩, ⟨3,2⟩, ⟨3,1⟩, ⟨3,0⟩, ⟨2,0⟩, ⟨1,0⟩, ⟨1,1⟩, ⟨0,1⟩]⟩

/-- Enemy snake of equal length 8 whose head `(1,3)` is adjacent to the
candidate cell `(1,2)`. -/
def enemyC5a : RawSnake :=
  ⟨"e1", 90, [⟨1,3⟩, ⟨1,4⟩, ⟨2,4⟩, ⟨3,4⟩, ⟨4,4⟩, ⟨4,3⟩, ⟨4,2⟩, ⟨4,1⟩]⟩

/-- Enemy snake of length 2 whose head `(2,3)` blocks the downward
candidate without threatening the surviving ones. -/
def enemyC5b : RawSnake := ⟨"e2", 90, [⟨2,3⟩, ⟨3,3⟩]⟩

/-- 5x5 board for the C5 counterexample: two candidates remain, `left`
`(1,2)` threatened by the equal-length head of `enemyC5a`, `up` `(2,1)`
adjacent to no enemy head but boxed into a pocket of size 1. -/
def boardC5 : RawBoard := ⟨5, 5, [], [youC5, enemyC5a, enemyC5b]⟩

/-- Own snake of length 3, head `(2,2)`, health 1. -/
def youC6 : RawSnake := ⟨"me", 1, [⟨2,2⟩, ⟨2,3⟩, ⟨2,4⟩]⟩

/-- 5x5 board: a strictly shorter enemy's head `(0,2)` is adjacent to
the candidate `left` `(1,2)`; the only food sits at `(4,4)`, Manhattan
distance 4 from our head, while our health is 1. -/
def boardC6 : RawBoard := ⟨5, 5, [⟨4,4⟩], [youC6, ⟨"e1", 90, [⟨0,2⟩, ⟨0,3⟩]⟩]⟩

/-- Own snake whose raw body repeats the coordinate `(1,2)`: three raw
segments, two distinct cells. -/
def youC7 : RawSnake := ⟨"me", 100, [⟨1,1⟩, ⟨1,2⟩, ⟨1,2⟩]⟩

/-- 3x3 board holding only `youC7`. -/
def boardC7 : RawBoard := ⟨3, 3, [], [youC7]⟩

/-- Own snake of length 4 used for the single-candidate witness: head
`(0,1)`, the wall and its own body leave `(0,2)` as the only unblocked
neighbour. -/
def youC3 : RawSnake := ⟨"me", 80, [⟨0,1⟩, ⟨0,0⟩, ⟨1,0⟩, ⟨2,0⟩]⟩

/-- 3x3 board: together with the enemy `[(1,1),(2,1)]`, exactly one
candidate (`down`, `(0,2)`) remains. -/
def boardC3 : RawBoard := ⟨3, 3, [], [youC3, ⟨"e1", 90, [⟨1,1⟩, ⟨2,1⟩]⟩]⟩

/-- Own snake of length 2 for the amended-C5 witness. -/
def youC5w : RawSnake := ⟨"me", 70, [⟨1,1⟩, ⟨2,1⟩]⟩

/-- 3x3 board for the amended-C5 witness: candidates `left` `(0,1)` and
`up` `(1,0)` are adjacent to the equal-length enemy head `(0,0)`;
`right` and `down` are adjacent to no enemy head and flood into the
7-cell open region, ample for our length 2. -/
def boardC5w : RawBoard := ⟨3, 3, [], [youC5w, ⟨"e1", 90, [⟨0,0⟩, ⟨0,1⟩]⟩]⟩

/-- Own single-cell snake at `(2,2)` used for the turn-0 snapshots. -/
def youC8 : RawSnake := ⟨"me", 100, [⟨2,2⟩]⟩

/-- 5x5 turn-0 board with one food at `(0,2)`. -/
def boardC8 : RawBoard := ⟨5, 5, [⟨0,2⟩], [youC8]⟩

/-- 5x5 turn-0 board with no food at all. -/
def boardC10 : RawBoard := ⟨5, 5, [], [youC8]⟩

/-- The state built from the turn-0 snapshot `boardC8`. -/
def sC8 : GameState := (Initialize 0 boardC8 youC8 []).getD default

/-- Our registry entry in `sC8`. -/
def ownC8 : SnakeState := sC8.snakes.headD default

/-- The nearest food entry in `sC8`. -/
def f0C8 : FoodState := sC8.food.headD default

/-- The state built from the foodless turn-0 snapshot `boardC10`. -/
def sC10 : GameState := (Initialize 0 boardC10 youC8 []).getD default

/-- The state built from the single-candidate snapshot `boardC3` at
turn 5. -/
def sC3 : GameState := (Initialize 5 boardC3 youC3 []).getD default

/-- Our registry entry in `sC3`. -/
def ownC3 : SnakeState := sC3.snakes.headD default

/-- The unique candidate move in `sC3`. -/
def mC3 : MoveType := (candidateMoves sC3 ownC3.head).headD default

/-- The region-mapping output on the `sC3` candidates. -/
def mapC3 : GameState × List MoveType :=
  (mapStage sC3 ((candidateMoves sC3 ownC3.head).map
    (annotateThreat sC3 ownC3.head ownC3.length)) 0 []).getD default

/-- The region-tagged copy of the unique `sC3` candidate. -/
def m2C3 : MoveType := mapC3.2.headD default

/-- The flood fill of region 1 from the `sC3` candidate cell. -/
def msC3 : Grid × SpaceState × Nat := (MapSpace sC3 mC3.c 1).getD default

/-- The same flood fill with its ghost work-stack record. -/
def rC3 : FloodResult := (MapSpaceRun sC3 mC3.c 1).getD default

/-- 3x3 snapshot whose snake of length 6 leaves only two candidates,
each flooding into the same 4-cell region: every candidate is too
small. -/
def youC4w : RawSnake :=
  ⟨"me", 80, [⟨1,1⟩, ⟨1,0⟩, ⟨0,0⟩, ⟨0,1⟩, ⟨0,2⟩, ⟨1,2⟩]⟩

/-- The board around `youC4w` (no food, no enemy). -/
def boardC4w : RawBoard := ⟨3, 3, [], [youC4w]⟩

/-- The state built from `boardC4w` at turn 5. -/
def sC4w : GameState := (Initialize 5 boardC4w youC4w []).getD default

/-- Our registry entry in `sC4w`. -/
def ownC4w : SnakeState := sC4w.snakes.headD default

/-- The region-mapping output on the `sC4w` candidates. -/
def mapC4w : GameState × List MoveType :=
  (mapStage sC4w ((candidateMoves sC4w ownC4w.head).map
    (annotateThreat sC4w ownC4w.head ownC4w.length)) 0 []).getD default

/-- The `sC4w` candidates after the small-space marking. -/
def markedC4w : List MoveType :=
  (markSmall mapC4w.1 ownC4w.length mapC4w.2 true).1

/-- The state built from `boardC5w` at turn 5. -/
def sC5w : GameState := (Initialize 5 boardC5w youC5w []).getD default

/-- Our registry entry in `sC5w`. -/
def ownC5w : SnakeState := sC5w.snakes.headD default

/-- The region-mapping output on the `sC5w` candidates. -/
def mapC5w : GameState × List MoveType :=
  (mapStage sC5w ((candidateMoves sC5w ownC5w.head).map
    (annotateThreat sC5w ownC5w.head ownC5w.length)) 0 []).getD default

/-- The `sC5w` candidates after the small-space marking. -/
def markedC5w : List MoveType :=
  (markSmall mapC5w.1 ownC5w.length mapC5w.2 true).1

/-- Membership of a coordinate in the `w x h` board rectangle. -/
def InBounds (w h : Nat) (c : Coord) : Prop :=
  0 ≤ c.x ∧ c.x < (w : Int) ∧ 0 ≤ c.y ∧ c.y < (h : Int)

instance (w h : Nat) (c : Coord) : Decidable (InBounds w h c) := by
  unfold InBounds; infer_instance

/-- Cells reachable from `c` through floodable cells, stepping along
`visitNeighbours` edges: the connected free space a flood fill started
at `c` is expected to cover. -/
inductive Reach (g : Grid) (w h : Nat) (c : Coord) : Coord → Prop
  | base : Reach g w h c c
  | step {y z : Coord} (hy : Reach g w h c y)
      (hnb : ∃ d, (z, d) ∈ visitNeighbours w h y)
      (hf : floodable g z = true) : Reach g w h c z

/-- The board rectangle as a finite set of coordinates. -/
def gridDomain (w h : Nat) : Finset Coord :=
  (Finset.range w ×ˢ Finset.range h).image (fun p => ⟨(p.1 : Int), (p.2 : Int)⟩)

/-- Number of in-board cells with no region tag yet. -/
def untaggedCount (g : Grid) (w h : Nat) : Nat :=
  ((gridDomain w h).filter (fun q => (g q).space = 0)).card

/-- Number of in-board cells carrying region tag `i`. -/
def tagCount (g : Grid) (w h : Nat) (i : Nat) : Nat :=
  ((gridDomain w h).filter (fun q => (g q).space = i)).card

/-- The per-candidate body of the Stage-3 marking loop
(`main.go:645-664`): threatened candidates are skipped; an unthreatened
candidate is marked `smallSpace` when its region size is below our
length. -/
def markOne (s : GameState) (myLength : Nat) (m : MoveType) : MoveType :=
  if 0 < m.nlonger then m
  else if (s.spaces.getD ((s.grid m.c).space) default).size < myLength then
    { m with smallSpace := true }
  else m

/-- Move a coordinate one cell in a named direction (geometric reading
of the four direction strings, used to state distance decrease). -/
def stepDir (d : String) (c : Coord) : Coord :=
  if d = "left" then ⟨c.x - 1, c.y⟩
  else if d = "right" then ⟨c.x + 1, c.y⟩
  else if d = "up" then ⟨c.x, c.y - 1⟩
  else ⟨c.x, c.y + 1⟩

/-- The grid of the C2 snapshot, used to instantiate the flood-step
characterization. -/
def gC2w : Grid := ((Initialize 1 boardC2 youC2 []).getD default).grid

/-- A fresh region record over two snake slots. -/
def spC2w : SpaceState := ⟨0, List.replicate 2 false, 0, false, 0⟩

/-! ## Basic lemmas about the sorting and de-duplication helpers -/

theorem insertSorted_mem {α : Type _} (lt : α → α → Bool) (a x : α) (l : List α) :
    x ∈ insertSorted lt a l ↔ x = a ∨ x ∈ l := by
  induction l with
  | nil => simp [insertSorted]
  | cons b l ih =>
    simp only [insertSorted]
    split
    · simp
    · simp only [List.mem_cons, ih]
      tauto

theorem sortByLt_mem {α : Type _} (lt : α → α → Bool) (l : List α) (x : α) :
    x ∈ sortByLt lt l ↔ x ∈ l := by
  induction l with
  | nil => simp [sortByLt]
  | cons b l ih =>
    show x ∈ insertSorted lt b (sortByLt lt l) ↔ _
    rw [insertSorted_mem]
    simp only [List.mem_cons]
    rw [ih]

theorem insertSorted_pairwise {α : Type _} (key : α → Int) (a : α) (l : List α)
    (hl : l.Pairwise (fun x y => key x ≤ key y)) :
    (insertSorted (fun x y => decide (key x < key y)) a l).Pairwise
      (fun x y => key x ≤ key y) := by
  induction l with
  | nil => simp [insertSorted]
  | cons b l ih =>
    rcases List.pairwise_cons.mp hl with ⟨hb, hl'⟩
    simp only [insertSorted]
    split
    next hab =>
      have hab' : key a < key b := of_decide_eq_true hab
      refine List.pairwise_cons.mpr ⟨?_, hl⟩
      intro y hy
      rcases List.mem_cons.mp hy with rfl | hy
      · exact le_of_lt hab'
      · exact le_trans (le_of_lt hab') (hb y hy)
    next hab =>
      have hab' : ¬ key a < key b := of_decide_eq_false (Bool.not_eq_true _ ▸ hab)
      refine List.pairwise_cons.mpr ⟨?_, ih hl'⟩
      intro y hy
      rcases (insertSorted_mem _ _ _ _).mp hy with rfl | hy
      · omega
      · exact hb y hy

theorem sortByLt_pairwise {α : Type _} (key : α → Int) (l : List α) :
    (sortByLt (fun x y => decide (key x < key y)) l).Pairwise
      (fun x y => key x ≤ key y) := by
  induction l with
  | nil => simp [sortByLt]
  | cons b l ih => exact insertSorted_pairwise key b _ ih

theorem sortByLt_head_min {α : Type _} (key : α → Int) (l : List α) (x : α)
    (xs : List α)
    (hx : sortByLt (fun a b => decide (key a < key b)) l = x :: xs)
    (y : α) (hy : y ∈ l) : key x ≤ key y := by
  have hmem : y ∈ x :: xs := hx ▸ (sortByLt_mem _ l y).mpr hy
  rcases List.mem_cons.mp hmem with rfl | hmem
  · exact le_refl _
  · have := sortByLt_pairwise key l
    rw [hx] at this
    exact (List.pairwise_cons.mp this).1 y hmem

theorem dedup_foldl_mem (l acc : List Coord) (x : Coord) :
    x ∈ l.foldl (fun acc c => if c ∈ acc then acc else acc ++ [c]) acc ↔
      x ∈ acc ∨ x ∈ l := by
  induction l generalizing acc with
  | nil => simp
  | cons c l ih =>
    simp only [List.foldl_cons]
    split
    next hc =>
      rw [ih]
      simp only [List.mem_cons]
      constructor
      · rintro (h | h)
        · exact Or.inl h
        · exact Or.inr (Or.inr h)
      · rintro (h | rfl | h)
        · exact Or.inl h
        · exact Or.inl hc
        · exact Or.inr h
    next hc =>
      rw [ih]
      simp only [List.mem_append, List.mem_singleton, List.mem_cons]
      tauto

theorem dedup_mem (l : List Coord) (x : Coord) : x ∈ dedup l ↔ x ∈ l := by
  unfold dedup
  rw [dedup_foldl_mem]
  simp

theorem dedup_foldl_head (l acc : List Coord) (d : Coord) (h : acc ≠ []) :
    l.foldl (fun acc c => if c ∈ acc then acc else acc ++ [c]) acc ≠ [] ∧
    (l.foldl (fun acc c => if c ∈ acc then acc else acc ++ [c]) acc).headD d =
      acc.headD d := by
  induction l generalizing acc with
  | nil => exact ⟨h, rfl⟩
  | cons c l ih =>
    simp only [List.foldl_cons]
    split
    · exact ih acc h
    · rcases ih (acc ++ [c]) (by simp) with ⟨h1, h2⟩
      refine ⟨h1, ?_⟩
      rw [h2]
      cases acc with
      | nil => exact absurd rfl h
      | cons a l' => simp

theorem dedup_cons_head (x : Coord) (l : List Coord) (d : Coord) :
    dedup (x :: l) ≠ [] ∧ (dedup (x :: l)).headD d = x := by
  unfold dedup
  simp only [List.foldl_cons, List.mem_nil_iff, if_neg (not_false), List.nil_append]
  exact dedup_foldl_head l [x] d (by simp)

/-! ## Characterization of Initialize -/

theorem Initialize_char {t : Nat} {b : RawBoard} {y : RawSnake} {pf : List Coord}
    {s : GameState} (hs : Initialize t b y pf = some s) :
    ∃ hd tl, y.body = hd :: tl ∧
      b.snakes.any (fun sn => sn.body.isEmpty) = false ∧
      s = builtState t b hd pf := by
  unfold Initialize at hs
  split at hs
  · exact absurd hs (by simp)
  next hd tl heq =>
    split at hs
    · exact absurd hs (by simp)
    next hne =>
      refine ⟨hd, tl, heq, by simpa using hne, ?_⟩
      injection hs with h
      exact h.symm

theorem builtState_snakes (t : Nat) (b : RawBoard) (hd : Coord) (pf : List Coord) :
    (builtState t b hd pf).snakes =
      sortByLt (fun a b => decide (a.dist < b.dist))
        (b.snakes.map (mkSnakeState t pf hd)) := rfl

theorem builtState_food (t : Nat) (b : RawBoard) (hd : Coord) (pf : List Coord) :
    (builtState t b hd pf).food =
      sortByLt (fun a b => decide (a.dist < b.dist))
        (mkFoodStates hd (builtState t b hd pf).snakes b.food) := rfl

-- SLOW_BEGIN
/-! ## C1: the zero-candidate fallback of the evolved iteration -/

/-- C1: the claim says that with zero legal candidates `FindMove` still
returns a fixed default direction.  On the evolved iteration
(`main.go`) the zero-candidate fallback is commented out
(`main.go:531-542`), and the final loop then dereferences
`moves[least]` with `least = -1` (`main.go:793-794`), a Go index panic
modelled here as `none`: on the fully enclosed snapshot `boardC1` the
candidate list is empty and the decision function is undefined rather
than a direction. -/
theorem C1_enclosed_head_panics :
    ((Initialize 5 boardC1 youC1 []).map (fun s =>
      candidateMoves s (s.snakes.headD default).head)) = some [] ∧
    FindMove 5 boardC1 youC1 [] = none := by decide

/-! ## C2: what the flood fill treats as floodable -/

/-- C2 (counterexample): on `boardC2` at turn 1 our snake is growing
(turn < 2), yet `MapSpace` started from `(1,0)` pushes and tags the
growing snake's tail cell `(0,1)` (its region tag becomes 1) and counts
it (the region holds all 8 non-head cells of the 3x3 board).  The
claim's assertion that a growing snake's tail is impassable — neither
traversed nor counted — is false for the flood fill: the growing check
exists only in candidate enumeration (`main.go:517-518`), not in
`MapSpace` (`main.go:333`). -/
theorem C2_growing_tail_flooded :
    ((Initialize 1 boardC2 youC2 []).map (fun s =>
      ((s.grid ⟨0,1⟩).isTail, (s.snakes.headD default).tail,
       (s.snakes.headD default).growing,
       (MapSpace s ⟨1,0⟩ 1).map (fun r => (r.2.2, (r.1 ⟨0,1⟩).space)))))
      = some (true, ⟨0,1⟩, true, some (8, 1)) := by decide

-- SLOW_END

/-- A floodable cell (empty, food or tail) is never a body or head
cell: the numeric packing keeps the classifications disjoint. -/
theorem floodable_not_bodyhead (g : Grid) (z : Coord)
    (hf : floodable g z = true) : ((g z).isBody || (g z).isHead) = false := by
  simp only [floodable, GameCell.isEmpty, GameCell.isFood, GameCell.isTail,
    Bool.or_eq_true, Bool.and_eq_true, beq_iff_eq, decide_eq_true_eq] at hf
  simp only [GameCell.isBody, GameCell.isHead, Bool.or_eq_false_iff,
    Bool.and_eq_false_iff, beq_eq_false_iff_ne, ne_eq, decide_eq_false_iff_not,
    not_lt]
  omega

/-- When the neighbour is not floodable the flood step leaves the work
stack unchanged. -/
theorem floodStep_fst_of_not_floodable (g : Grid) (acc : List Coord × SpaceState)
    (nb : Coord × String) (hfl : floodable g nb.1 = false) :
    (floodStep g acc nb).1 = acc.1 := by
  simp only [floodStep, hfl, Bool.false_eq_true, if_false]
  split <;> rfl

/-- When the neighbour is floodable the flood step pushes it and keeps
the region record. -/
theorem floodStep_of_floodable (g : Grid) (acc : List Coord × SpaceState)
    (nb : Coord × String) (hfl : floodable g nb.1 = true) :
    floodStep g acc nb = (nb.1 :: acc.1, acc.2) := by
  simp only [floodStep, hfl, if_true]

/-- What the flood fold pushes: exactly the floodable neighbours, on
top of the previous stack. -/
theorem floodStep_foldl_fst_mem (g : Grid) (L : List (Coord × String))
    (stack : List Coord) (sp : SpaceState) (n : Coord) :
    n ∈ (L.foldl (floodStep g) (stack, sp)).1 ↔
      n ∈ stack ∨ ∃ d, (n, d) ∈ L ∧ floodable g n = true := by
  induction L generalizing stack sp with
  | nil => simp
  | cons nb L ih =>
    simp only [List.foldl_cons]
    cases hfl : floodable g nb.1 with
    | true =>
      rw [floodStep_of_floodable g _ nb hfl, ih]
      simp only [List.mem_cons, Prod.ext_iff]
      constructor
      · rintro ((rfl | hst) | ⟨d, hd, hfd⟩)
        · exact Or.inr ⟨nb.2, Or.inl ⟨rfl, rfl⟩, hfl⟩
        · exact Or.inl hst
        · exact Or.inr ⟨d, Or.inr hd, hfd⟩
      · rintro (hst | ⟨d, ⟨hn, _⟩ | hd, hfd⟩)
        · exact Or.inl (Or.inr hst)
        · exact Or.inl (Or.inl hn)
        · exact Or.inr ⟨d, hd, hfd⟩
    | false =>
      rw [show floodStep g (stack, sp) nb =
            ((floodStep g (stack, sp) nb).1, (floodStep g (stack, sp) nb).2) from rfl,
          floodStep_fst_of_not_floodable g _ nb hfl, ih]
      constructor
      · rintro (h | ⟨d, hd, hfd⟩)
        · exact Or.inl h
        · exact Or.inr ⟨d, List.mem_cons_of_mem _ hd, hfd⟩
      · rintro (h | ⟨d, hd, hfd⟩)
        · exact Or.inl h
        · rcases List.mem_cons.mp hd with heq | hd'
          · have hn : n = nb.1 := congrArg Prod.fst heq
            rw [hn, hfl] at hfd
            exact absurd hfd (by simp)
          · exact Or.inr ⟨d, hd', hfd⟩

/-- The flood fold preserves the length of the boundary set. -/
theorem floodStep_foldl_snd_length (g : Grid) (L : List (Coord × String))
    (stack : List Coord) (sp : SpaceState) :
    (L.foldl (floodStep g) (stack, sp)).2.snakes.length = sp.snakes.length := by
  induction L generalizing stack sp with
  | nil => rfl
  | cons nb L ih =>
    simp only [List.foldl_cons, floodStep]
    split
    · exact ih _ _
    · split
      · rw [ih]
        simp
      · exact ih _ _

/-- What the flood fold records in the boundary set: exactly the snake
indices of body and head neighbours (plus whatever was there before). -/
theorem floodStep_foldl_snd_getD (g : Grid) (L : List (Coord × String))
    (stack : List Coord) (sp : SpaceState) (i : Nat) (hi : i < sp.snakes.length) :
    ((L.foldl (floodStep g) (stack, sp)).2.snakes.getD i false = true ↔
      sp.snakes.getD i false = true ∨
        ∃ n d, (n, d) ∈ L ∧ ((g n).isBody || (g n).isHead) = true ∧
          (g n).snakeNo = i) := by
  induction L generalizing stack sp with
  | nil => simp
  | cons nb L ih =>
    simp only [List.foldl_cons]
    cases hfl : floodable g nb.1 with
    | true =>
      rw [floodStep_of_floodable g _ nb hfl, ih _ _ hi]
      constructor
      · rintro (h | ⟨n, d, hd, hbh, hsn⟩)
        · exact Or.inl h
        · exact Or.inr ⟨n, d, List.mem_cons_of_mem _ hd, hbh, hsn⟩
      · rintro (h | ⟨n, d, hd, hbh, hsn⟩)
        · exact Or.inl h
        · rcases List.mem_cons.mp hd with heq | hd'
          · have hn : n = nb.1 := congrArg Prod.fst heq
            rw [hn, floodable_not_bodyhead g nb.1 hfl] at hbh
            exact absurd hbh (by simp)
          · exact Or.inr ⟨n, d, hd', hbh, hsn⟩
    | false =>
      by_cases hbh : ((g nb.1).isBody || (g nb.1).isHead) = true
      · have hstep : floodStep g (stack, sp) nb =
            (stack, { sp with snakes := sp.snakes.set (g nb.1).snakeNo true }) := by
          simp only [floodStep, hfl, Bool.false_eq_true, if_false, hbh, if_true]
        rw [hstep, ih _ _ (by simpa using hi)]
        by_cases hj : (g nb.1).snakeNo = i
        · have hset : (sp.snakes.set (g nb.1).snakeNo true).getD i false = true := by
            rw [hj]
            simp [List.getD_eq_getElem?_getD, List.getElem?_set_self', hi]
          rw [hset]
          constructor
          · intro _
            exact Or.inr ⟨nb.1, nb.2, List.mem_cons_self nb L, hbh, hj⟩
          · intro _
            exact Or.inl rfl
        · have hset : (sp.snakes.set (g nb.1).snakeNo true).getD i false =
              sp.snakes.getD i false := by
            simp [List.getD_eq_getElem?_getD,
              List.getElem?_set_ne (show (g nb.1).snakeNo ≠ i from hj)]
          rw [hset]
          constructor
          · rintro (h | ⟨n, d, hd, hbh', hsn⟩)
            · exact Or.inl h
            · exact Or.inr ⟨n, d, List.mem_cons_of_mem _ hd, hbh', hsn⟩
          · rintro (h | ⟨n, d, hd, hbh', hsn⟩)
            · exact Or.inl h
            · rcases List.mem_cons.mp hd with heq | hd'
              · have hn : n = nb.1 := congrArg Prod.fst heq
                exact absurd (hn ▸ hsn) hj
              · exact Or.inr ⟨n, d, hd', hbh', hsn⟩
      · have hstep : floodStep g (stack, sp) nb = (stack, sp) := by
          simp only [floodStep, hfl, Bool.false_eq_true, if_false]
          rw [if_neg hbh]
        rw [hstep, ih _ _ hi]
        constructor
        · rintro (h | ⟨n, d, hd, hbh', hsn⟩)
          · exact Or.inl h
          · exact Or.inr ⟨n, d, List.mem_cons_of_mem _ hd, hbh', hsn⟩
        · rintro (h | ⟨n, d, hd, hbh', hsn⟩)
          · exact Or.inl h
          · rcases List.mem_cons.mp hd with heq | hd'
            · have hn : n = nb.1 := congrArg Prod.fst heq
              exact absurd (hn ▸ hbh') hbh
            · exact Or.inr ⟨n, d, hd', hbh', hsn⟩

/-- C2 (amended): during every flood fill a neighbour cell is pushed as
floodable exactly when it is Empty, Food or any Tail cell — the owning
snake's growing flag is never consulted by the flood fill — and a Body
or Head neighbour is never pushed but contributes exactly its snake
index to the region's boundary set. -/
theorem C2_flood_push_char (g : Grid) (w h : Nat) (p : Coord)
    (stack : List Coord) (sp : SpaceState) :
    (∀ n, n ∈ (floodVisit g w h p stack sp).1 ↔
        n ∈ stack ∨ ∃ d, (n, d) ∈ visitNeighbours w h p ∧ floodable g n = true) ∧
    (∀ i, i < sp.snakes.length →
      ((floodVisit g w h p stack sp).2.snakes.getD i false = true ↔
        sp.snakes.getD i false = true ∨
          ∃ n d, (n, d) ∈ visitNeighbours w h p ∧
            ((g n).isBody || (g n).isHead) = true ∧ (g n).snakeNo = i)) :=
  ⟨fun n => floodStep_foldl_fst_mem g (visitNeighbours w h p) stack sp n,
   fun i hi => floodStep_foldl_snd_getD g (visitNeighbours w h p) stack sp i hi⟩

/-- Witness for C2 (amended) on the concrete C2 snapshot: the flood
step from `(1,0)` with an empty stack and a fresh two-slot boundary
set. -/
theorem C2_flood_push_char_witness :
    (∀ n, n ∈ (floodVisit gC2w 3 3 ⟨1,0⟩ [] spC2w).1 ↔
        n ∈ ([] : List Coord) ∨ ∃ d, (n, d) ∈ visitNeighbours 3 3 ⟨1,0⟩ ∧
          floodable gC2w n = true) ∧
    (∀ i, i < spC2w.snakes.length →
      ((floodVisit gC2w 3 3 ⟨1,0⟩ [] spC2w).2.snakes.getD i false = true ↔
        spC2w.snakes.getD i false = true ∨
          ∃ n d, (n, d) ∈ visitNeighbours 3 3 ⟨1,0⟩ ∧
            ((gC2w n).isBody || (gC2w n).isHead) = true ∧ (gC2w n).snakeNo = i)) :=
  C2_flood_push_char gC2w 3 3 ⟨1,0⟩ [] spC2w

/-! ## Rewriting FindMove through its stages -/

theorem FindMove_eq_after {t : Nat} {b : RawBoard} {y : RawSnake} {pf : List Coord}
    {s : GameState} (hs : Initialize t b y pf = some s) :
    FindMove t b y pf = findMoveAfter t s := by
  unfold FindMove
  rw [hs]

theorem findMoveAfter_cons {t : Nat} {s : GameState} {own : SnakeState}
    {rest : List SnakeState} (hsn : s.snakes = own :: rest) :
    findMoveAfter t s = findMoveOwn t s own := by
  unfold findMoveAfter
  rw [hsn]

theorem findMoveOwn_zero_food {s : GameState} {own : SnakeState} {f0 : FoodState}
    {fr : List FoodState} (hf : s.food = f0 :: fr) :
    findMoveOwn 0 s own = some (turnZeroDir f0.pos own.head) := by
  unfold findMoveOwn
  rw [if_pos rfl, hf]

theorem findMoveOwn_zero_nofood {s : GameState} {own : SnakeState}
    (hf : s.food = []) : findMoveOwn 0 s own = none := by
  unfold findMoveOwn
  rw [if_pos rfl, hf]

theorem findMoveOwn_pos {t : Nat} {s : GameState} {own : SnakeState} (ht : 1 ≤ t) :
    findMoveOwn t s own = findMoveTurn s own.head own.length := by
  unfold findMoveOwn
  rw [if_neg (by omega)]

/-! ## Locating registry entries back in the raw snapshot -/

theorem headD_mem {α : Type _} (l : List α) (d : α) (h : l ≠ []) : l.headD d ∈ l := by
  cases l with
  | nil => exact absurd rfl h
  | cons a l => simp

theorem mem_food_pos {t : Nat} {b : RawBoard} {hd : Coord} {pf : List Coord}
    (fo : FoodState) (hfo : fo ∈ (builtState t b hd pf).food) : fo.pos ∈ b.food := by
  rw [builtState_food, sortByLt_mem] at hfo
  unfold mkFoodStates at hfo
  rcases List.mem_map.mp hfo with ⟨c, hc, rfl⟩
  simpa using (dedup_mem b.food c).mp hc

theorem mem_snakes_head_in_body {t : Nat} {b : RawBoard} {hd : Coord}
    {pf : List Coord} (e : SnakeState) (he : e ∈ (builtState t b hd pf).snakes)
    (hne : b.snakes.any (fun sn => sn.body.isEmpty) = false) :
    ∃ raw ∈ b.snakes, e.head ∈ raw.body := by
  rw [builtState_snakes, sortByLt_mem] at he
  rcases List.mem_map.mp he with ⟨raw, hraw, rfl⟩
  refine ⟨raw, hraw, ?_⟩
  have hbody : raw.body ≠ [] := by
    intro hb
    rw [List.any_eq_false] at hne
    exact hne raw hraw (by rw [hb]; rfl)
  have hdne : dedup raw.body ≠ [] := by
    cases hb : raw.body with
    | nil => exact absurd hb hbody
    | cons a l => exact (dedup_cons_head a l ⟨0,0⟩).1
  have hmem : (dedup raw.body).headD ⟨0,0⟩ ∈ raw.body :=
    (dedup_mem _ _).mp (headD_mem _ _ hdne)
  exact hmem

/-! ## The turn-0 opening direction strictly approaches the food -/

theorem turnZeroDir_decreases (f c : Coord) (hne : f ≠ c) :
    ManDist (stepDir (turnZeroDir f c) c) f < ManDist c f := by
  have hxy : f.x ≠ c.x ∨ f.y ≠ c.y := by
    by_contra hcon
    push_neg at hcon
    exact hne (by cases f; cases c; simp_all)
  unfold turnZeroDir
  by_cases h1 : f.x < c.x
  · rw [if_pos h1]
    unfold stepDir
    rw [if_pos rfl]
    unfold ManDist Abs
    dsimp only
    split_ifs <;> omega
  · rw [if_neg h1]
    by_cases h2 : c.x < f.x
    · rw [if_pos h2]
      unfold stepDir
      rw [if_neg (by decide), if_pos rfl]
      unfold ManDist Abs
      dsimp only
      split_ifs <;> omega
    · rw [if_neg h2]
      have hx : f.x = c.x := le_antisymm (not_lt.mp h2) (not_lt.mp h1)
      by_cases h3 : f.y < c.y
      · rw [if_pos h3]
        unfold stepDir
        rw [if_neg (by decide), if_neg (by decide), if_pos rfl]
        unfold ManDist Abs
        dsimp only
        split_ifs <;> omega
      · rw [if_neg h3]
        have hy : c.y < f.y := by
          rcases hxy with hx' | hy'
          · exact absurd hx hx'
          · omega
        unfold stepDir
        rw [if_neg (by decide), if_neg (by decide), if_neg (by decide)]
        unfold ManDist Abs
        dsimp only
        split_ifs <;> omega

/-! ## C8: the turn-0 opening move -/

/-- C8: on every turn-0 snapshot with at least one food item and food
cells disjoint from snake bodies (the spec's one-classification-per-
cell invariant), `FindMove` returns the fixed axis-priority direction
toward the nearest food — left if `food.x < head.x`, else right if
`food.x > head.x`, else up if `food.y < head.y`, else down — that
direction strictly decreases the Manhattan distance from the head to
that food, and the food read is a nearest one. -/
theorem C8_turn_zero_food_seek {b : RawBoard} {y : RawSnake} {pf : List Coord}
    {s : GameState} {own : SnakeState} {rest : List SnakeState} {f0 : FoodState}
    {fr : List FoodState} (hs : Initialize 0 b y pf = some s)
    (hsn : s.snakes = own :: rest) (hf : s.food = f0 :: fr)
    (hdisj : ∀ f ∈ b.food, ∀ sn ∈ b.snakes, f ∉ sn.body) :
    FindMove 0 b y pf =
      some (if f0.pos.x < own.head.x then "left"
            else if own.head.x < f0.pos.x then "right"
            else if f0.pos.y < own.head.y then "up" else "down") ∧
    ManDist (stepDir (turnZeroDir f0.pos own.head) own.head) f0.pos <
      ManDist own.head f0.pos ∧
    (∀ fo ∈ s.food, f0.dist ≤ fo.dist) := by
  obtain ⟨hd, tl, hyb, hne, rfl⟩ := Initialize_char hs
  have hfmem : f0.pos ∈ b.food :=
    mem_food_pos f0 (by rw [hf]; exact List.mem_cons_self _ _)
  have hown : ∃ raw ∈ b.snakes, own.head ∈ raw.body :=
    mem_snakes_head_in_body own (by rw [hsn]; exact List.mem_cons_self _ _) hne
  have hneq : f0.pos ≠ own.head := by
    rcases hown with ⟨raw, hraw, hhead⟩
    intro heq
    exact (hdisj f0.pos hfmem raw hraw) (heq ▸ hhead)
  refine ⟨?_, turnZeroDir_decreases _ _ hneq, ?_⟩
  · rw [FindMove_eq_after hs, findMoveAfter_cons hsn, findMoveOwn_zero_food hf]
    rfl
  · intro fo hfo
    have hbase := builtState_food 0 b hd pf
    rw [hbase] at hf
    exact sortByLt_head_min (fun fs : FoodState => fs.dist) _ f0 fr hf fo
      ((sortByLt_mem _ _ fo).mp (by rw [← hbase]; exact hfo))

/-- Witness for C8 on the concrete turn-0 snapshot `boardC8`. -/
theorem C8_turn_zero_food_seek_witness :
    FindMove 0 boardC8 youC8 [] =
      some (if f0C8.pos.x < ownC8.head.x then "left"
            else if ownC8.head.x < f0C8.pos.x then "right"
            else if f0C8.pos.y < ownC8.head.y then "up" else "down") ∧
    ManDist (stepDir (turnZeroDir f0C8.pos ownC8.head) ownC8.head) f0C8.pos <
      ManDist ownC8.head f0C8.pos ∧
    (∀ fo ∈ sC8.food, f0C8.dist ≤ fo.dist) :=
  @C8_turn_zero_food_seek boardC8 youC8 [] sC8 ownC8 [] f0C8 [] rfl (by decide)
    (by decide) (by decide)

/-! ## Facts about the neighbour enumeration -/

theorem mem_ite_singleton {α : Type _} (P : Prop) [Decidable P] (a x : α) :
    x ∈ (if P then [a] else ([] : List α)) ↔ P ∧ x = a := by
  split <;> simp_all

theorem visitNeighbours_mem (w h : Nat) (c : Coord) (nb : Coord × String) :
    nb ∈ visitNeighbours w h c ↔
      (0 ≤ c.x - 1 ∧ nb = (⟨c.x - 1, c.y⟩, "left")) ∨
      (c.x + 1 < (w : Int) ∧ nb = (⟨c.x + 1, c.y⟩, "right")) ∨
      (0 ≤ c.y - 1 ∧ nb = (⟨c.x, c.y - 1⟩, "up")) ∨
      (c.y + 1 < (h : Int) ∧ nb = (⟨c.x, c.y + 1⟩, "down")) := by
  unfold visitNeighbours
  simp only [List.mem_append, mem_ite_singleton, or_assoc]

theorem visitNeighbours_inbounds (w h : Nat) (c : Coord) (hc : InBounds w h c)
    (nb : Coord × String) (hnb : nb ∈ visitNeighbours w h c) : InBounds w h nb.1 := by
  obtain ⟨h1, h2, h3, h4⟩ := hc
  rcases (visitNeighbours_mem w h c nb).mp hnb with
    ⟨hP, rfl⟩ | ⟨hP, rfl⟩ | ⟨hP, rfl⟩ | ⟨hP, rfl⟩ <;>
    exact ⟨by simp; omega, by simp; omega, by simp; omega, by simp; omega⟩

theorem visitNeighbours_length_le (w h : Nat) (c : Coord) :
    (visitNeighbours w h c).length ≤ 4 := by
  unfold visitNeighbours
  split_ifs <;> simp

theorem visitNeighbours_dirs_nodup (w h : Nat) (c : Coord) :
    ((visitNeighbours w h c).map Prod.snd).Nodup := by
  unfold visitNeighbours
  split_ifs <;> simp

/-! ## The freshly built grid carries no region tags -/

theorem gridSet_space_zero {g : Grid} (hg : ∀ q, (g q).space = 0) (c : Coord)
    (v : GameCell) (hv : v.space = 0) (q : Coord) :
    ((gridSet g c v) q).space = 0 := by
  unfold gridSet
  split
  · exact hv
  · exact hg q

theorem writeSnakes_space_zero :
    ∀ (l : List SnakeState) (sx : Nat) (g : Grid), (∀ q, (g q).space = 0) →
      ∀ q, ((writeSnakes l sx g) q).space = 0 := by
  intro l
  induction l with
  | nil => intro sx g hg q; exact hg q
  | cons sn l ih =>
    intro sx g hg q
    unfold writeSnakes
    apply ih
    intro q'
    apply gridSet_space_zero _ _ _ rfl
    intro q''
    apply gridSet_space_zero _ _ _ rfl
    intro q'''
    have hfold : ∀ (segs : List Coord) (g0 : Grid), (∀ p, (g0 p).space = 0) →
        ∀ p, ((segs.foldl (fun acc seg => gridSet acc seg (BodyCell sx)) g0) p).space = 0 := by
      intro segs
      induction segs with
      | nil => intro g0 hg0 p; exact hg0 p
      | cons a segs ihs =>
        intro g0 hg0 p
        simp only [List.foldl_cons]
        exact ihs _ (fun p' => gridSet_space_zero hg0 a _ rfl p') p
    exact hfold sn.segments g hg q'''

theorem writeFood_space_zero (l : List Coord) :
    ∀ (g : Grid), (∀ q, (g q).space = 0) → ∀ q, ((writeFood g l) q).space = 0 := by
  induction l with
  | nil => intro g hg q; exact hg q
  | cons a l ih =>
    intro g hg q
    unfold writeFood
    simp only [List.foldl_cons]
    exact ih _ (fun p => gridSet_space_zero hg a FoodCell rfl p) q

theorem builtState_space_zero (t : Nat) (b : RawBoard) (hd : Coord)
    (pf : List Coord) (q : Coord) : ((builtState t b hd pf).grid q).space = 0 := by
  show ((writeFood (writeSnakes _ 0 emptyGrid) (dedup b.food)) q).space = 0
  apply writeFood_space_zero
  apply writeSnakes_space_zero
  intro q'
  rfl

/-! ## Threat annotation changes only the threat counters -/

theorem threatStep_preserves (s : GameState) (myHead mc : Coord) (myLength : Nat)
    (mv : MoveType) (nb : Coord × String) :
    (threatStep s myHead mc myLength mv nb).dir = mv.dir ∧
    (threatStep s myHead mc myLength mv nb).c = mv.c ∧
    (threatStep s myHead mc myLength mv nb).space = mv.space ∧
    (threatStep s myHead mc myLength mv nb).smallSpace = mv.smallSpace := by
  unfold threatStep
  split
  · split <;> exact ⟨rfl, rfl, rfl, rfl⟩
  · exact ⟨rfl, rfl, rfl, rfl⟩

theorem threatStep_foldl_preserves (s : GameState) (myHead mc : Coord)
    (myLength : Nat) (L : List (Coord × String)) (mv : MoveType) :
    (L.foldl (threatStep s myHead mc myLength) mv).dir = mv.dir ∧
    (L.foldl (threatStep s myHead mc myLength) mv).c = mv.c ∧
    (L.foldl (threatStep s myHead mc myLength) mv).space = mv.space ∧
    (L.foldl (threatStep s myHead mc myLength) mv).smallSpace = mv.smallSpace := by
  induction L generalizing mv with
  | nil => exact ⟨rfl, rfl, rfl, rfl⟩
  | cons nb L ih =>
    simp only [List.foldl_cons]
    obtain ⟨h1, h2, h3, h4⟩ := ih (threatStep s myHead mc myLength mv nb)
    obtain ⟨g1, g2, g3, g4⟩ := threatStep_preserves s myHead mc myLength mv nb
    exact ⟨h1.trans g1, h2.trans g2, h3.trans g3, h4.trans g4⟩

theorem annotateThreat_preserves (s : GameState) (myHead : Coord) (myLength : Nat)
    (m : MoveType) :
    (annotateThreat s myHead myLength m).dir = m.dir ∧
    (annotateThreat s myHead myLength m).c = m.c ∧
    (annotateThreat s myHead myLength m).space = m.space ∧
    (annotateThreat s myHead myLength m).smallSpace = m.smallSpace :=
  threatStep_foldl_preserves s myHead m.c myLength _ m

/-! ## Facts about the candidate list -/

theorem candidateMoves_mem {s : GameState} {myHead : Coord} {m : MoveType}
    (hm : m ∈ candidateMoves s myHead) :
    ∃ nb ∈ visitNeighbours s.w s.h myHead, isBlocked s nb.1 = false ∧
      m = { dir := nb.2, c := nb.1, nlonger := 0, alternate := 0, nshorter := 0,
            space := 0, smallSpace := false } := by
  unfold candidateMoves at hm
  rcases List.mem_filterMap.mp hm with ⟨nb, hnb, hsome⟩
  refine ⟨nb, hnb, ?_, ?_⟩
  · by_contra hbl
    rw [if_pos (by simpa using hbl)] at hsome
    exact absurd hsome (by simp)
  · rcases hbl : isBlocked s nb.1 with _ | _
    · rw [if_neg (by simp [hbl])] at hsome
      exact (Option.some.injEq _ _ ▸ hsome).symm
    · rw [if_pos (by simp [hbl])] at hsome
      exact absurd hsome (by simp)

theorem candidateMoves_inbounds {s : GameState} {myHead : Coord}
    (hc : InBounds s.w s.h myHead) {m : MoveType}
    (hm : m ∈ candidateMoves s myHead) : InBounds s.w s.h m.c := by
  rcases candidateMoves_mem hm with ⟨nb, hnb, _, rfl⟩
  exact visitNeighbours_inbounds s.w s.h myHead hc nb hnb

theorem candidateMoves_dirs_sublist (s : GameState) (myHead : Coord) :
    ((candidateMoves s myHead).map (fun m => m.dir)).Sublist
      ((visitNeighbours s.w s.h myHead).map Prod.snd) := by
  unfold candidateMoves
  generalize visitNeighbours s.w s.h myHead = L
  induction L with
  | nil => simp
  | cons nb L ih =>
    simp only [List.filterMap_cons]
    by_cases hbl : isBlocked s nb.1 = true
    · rw [if_pos hbl]
      exact ih.cons _
    · rw [if_neg hbl]
      simp only [List.map_cons]
      exact ih.cons₂ _

theorem candidateMoves_dirs_nodup (s : GameState) (myHead : Coord) :
    ((candidateMoves s myHead).map (fun m => m.dir)).Nodup :=
  (candidateMoves_dirs_sublist s myHead).nodup
    (visitNeighbours_dirs_nodup s.w s.h myHead)

theorem candidateMoves_fresh {s : GameState} {myHead : Coord} {m : MoveType}
    (hm : m ∈ candidateMoves s myHead) :
    m.nlonger = 0 ∧ m.alternate = 0 ∧ m.nshorter = 0 ∧ m.space = 0 ∧
      m.smallSpace = false := by
  rcases candidateMoves_mem hm with ⟨nb, hnb, _, rfl⟩
  exact ⟨rfl, rfl, rfl, rfl, rfl⟩

/-! ## Counting cells of the board rectangle -/

theorem mem_gridDomain (w h : Nat) (c : Coord) :
    c ∈ gridDomain w h ↔ InBounds w h c := by
  unfold gridDomain InBounds
  simp only [Finset.mem_image, Finset.mem_product, Finset.mem_range, Prod.exists]
  constructor
  · rintro ⟨a, b, ⟨ha, hb⟩, rfl⟩
    refine ⟨by simp, by simpa using ha, by simp, by simpa using hb⟩
  · rintro ⟨h1, h2, h3, h4⟩
    obtain ⟨x, y⟩ := c
    dsimp only at h1 h2 h3 h4
    refine ⟨x.toNat, y.toNat, ⟨by omega, by omega⟩, ?_⟩
    simp only [Coord.mk.injEq]
    constructor <;> omega

theorem gridDomain_card (w h : Nat) : (gridDomain w h).card ≤ w * h := by
  unfold gridDomain
  calc ((Finset.range w ×ˢ Finset.range h).image _).card
      ≤ (Finset.range w ×ˢ Finset.range h).card := Finset.card_image_le
    _ = w * h := by simp

theorem untaggedCount_le (g : Grid) (w h : Nat) : untaggedCount g w h ≤ w * h :=
  le_trans (Finset.card_filter_le _ _) (gridDomain_card w h)

theorem untaggedCount_set (g : Grid) (w h : Nat) (p : Coord) (hp : InBounds w h p)
    (hp0 : (g p).space = 0) (v : GameCell) (hv : v.space ≠ 0) :
    untaggedCount (gridSet g p v) w h + 1 = untaggedCount g w h := by
  unfold untaggedCount
  have hset : (gridDomain w h).filter (fun q => ((gridSet g p v) q).space = 0) =
      ((gridDomain w h).filter (fun q => (g q).space = 0)).erase p := by
    ext q
    simp only [Finset.mem_filter, Finset.mem_erase, gridSet]
    by_cases hq : q = p
    · subst hq
      simp [hv]
    · simp [hq]
  have hmem : p ∈ (gridDomain w h).filter (fun q => (g q).space = 0) := by
    simp only [Finset.mem_filter]
    exact ⟨(mem_gridDomain w h p).mpr hp, hp0⟩
  rw [hset, Finset.card_erase_of_mem hmem]
  have hpos : 0 < ((gridDomain w h).filter (fun q => (g q).space = 0)).card :=
    Finset.card_pos.mpr ⟨p, hmem⟩
  omega

/-! ## The flood fill's work loop: stack growth and fuel sufficiency -/

theorem floodStep_foldl_fst_length (g : Grid) (L : List (Coord × String))
    (stack : List Coord) (sp : SpaceState) :
    (L.foldl (floodStep g) (stack, sp)).1.length ≤ stack.length + L.length := by
  induction L generalizing stack sp with
  | nil => simp
  | cons nb L ih =>
    simp only [List.foldl_cons]
    cases hfl : floodable g nb.1 with
    | true =>
      rw [floodStep_of_floodable g _ nb hfl]
      have := ih (nb.1 :: stack) sp
      simp only [List.length_cons] at this ⊢
      omega
    | false =>
      rw [show floodStep g (stack, sp) nb =
            ((floodStep g (stack, sp) nb).1, (floodStep g (stack, sp) nb).2) from rfl,
          floodStep_fst_of_not_floodable g _ nb hfl]
      have := ih stack (floodStep g (stack, sp) nb).2
      simp only [List.length_cons] at this ⊢
      omega

theorem floodGo_isSome (w h space : Nat) (hsp : space ≠ 0) :
    ∀ (fuel : Nat) (g : Grid) (sp : SpaceState) (stack : List Coord)
      (count maxLen : Nat), (∀ q ∈ stack, InBounds w h q) →
      5 * untaggedCount g w h + stack.length ≤ fuel →
      (floodGo w h space fuel g sp stack count maxLen).isSome = true := by
  intro fuel
  induction fuel with
  | zero =>
    intro g sp stack count maxLen hin hfuel
    cases stack with
    | nil => rfl
    | cons p rest => simp at hfuel
  | succ fuel ih =>
    intro g sp stack count maxLen hin hfuel
    cases stack with
    | nil => rfl
    | cons p rest =>
      simp only [floodGo]
      by_cases h0 : (g p).space ≠ 0
      · rw [if_pos h0]
        apply ih
        · intro q hq
          exact hin q (List.mem_cons_of_mem _ hq)
        · simp only [List.length_cons] at hfuel
          omega
      · rw [if_neg h0]
        have hq0 : (g p).space = 0 := by omega
        have hpin : InBounds w h p := hin p (List.mem_cons_self _ _)
        have huntag :
            untaggedCount (gridSet g p ⟨(g p).content, space⟩) w h + 1 =
              untaggedCount g w h :=
          untaggedCount_set g w h p hpin hq0 _ hsp
        apply ih
        · intro q hq
          rcases (floodStep_foldl_fst_mem _ _ _ _ q).mp hq with hq' | ⟨d, hd, _⟩
          · exact hin q (List.mem_cons_of_mem _ hq')
          · exact visitNeighbours_inbounds w h p hpin (q, d) hd
        · have hlen := floodStep_foldl_fst_length
            (gridSet g p ⟨(g p).content, space⟩) (visitNeighbours w h p) rest
            (if (g p).isFood = true then
              { sp with nfood := sp.nfood + 1 } else sp)
          have hnb := visitNeighbours_length_le w h p
          simp only [List.length_cons] at hfuel
          unfold floodVisit
          omega

theorem MapSpace_isSome (s : GameState) (c : Coord) (space : Nat)
    (hc : InBounds s.w s.h c) (hsp : space ≠ 0) :
    (MapSpace s c space).isSome = true := by
  unfold MapSpace
  have hgo := floodGo_isSome s.w s.h space hsp (floodFuel s.w s.h) s.grid
    ⟨0, List.replicate (s.snakes.length + 1) false, 0, false, 0⟩ [c] 0 1
    (by intro q hq; rw [List.mem_singleton] at hq; subst hq; exact hc)
    (by unfold floodFuel
        have := untaggedCount_le s.grid s.w s.h
        simp only [List.length_cons, List.length_nil]
        omega)
  rcases hr : floodGo s.w s.h space (floodFuel s.w s.h) s.grid
      ⟨0, List.replicate (s.snakes.length + 1) false, 0, false, 0⟩ [c] 0 1 with _ | r
  · rw [hr] at hgo
    simp at hgo
  · simp [hr]

/-! ## The mapping stage: correspondence and success -/

theorem mapStage_char :
    ∀ (L : List MoveType) (s : GameState) (n : Nat) (acc : List MoveType)
      (s' : GameState) (out : List MoveType),
      mapStage s L n acc = some (s', out) →
      s'.h = s.h ∧ s'.w = s.w ∧ s'.snakes = s.snakes ∧ s'.food = s.food ∧
      ∃ L', out = acc.reverse ++ L' ∧
        List.Forall₂ (fun m m' : MoveType => m'.dir = m.dir ∧ m'.c = m.c ∧
          m'.nlonger = m.nlonger ∧ m'.nshorter = m.nshorter ∧
          m'.alternate = m.alternate ∧ m'.smallSpace = m.smallSpace) L L' := by
  intro L
  induction L with
  | nil =>
    intro s n acc s' out h
    simp only [mapStage, Option.some.injEq, Prod.mk.injEq] at h
    obtain ⟨hs, hout⟩ := h
    subst hs
    subst hout
    exact ⟨rfl, rfl, rfl, rfl, [], by simp, List.Forall₂.nil⟩
  | cons m L ih =>
    intro s n acc s' out h
    simp only [mapStage] at h
    by_cases ht : 0 < (s.grid m.c).space
    · rw [if_pos ht] at h
      obtain ⟨h1, h2, h3, h4, L', hout, hrel⟩ := ih _ _ _ _ _ h
      refine ⟨h1, h2, h3, h4, { m with space := (s.grid m.c).space } :: L', ?_, ?_⟩
      · rw [hout, List.reverse_cons]
        simp
      · exact List.Forall₂.cons ⟨rfl, rfl, rfl, rfl, rfl, rfl⟩ hrel
    · rw [if_neg ht] at h
      by_cases h4 : 4 ≤ n + 1
      · rw [if_pos h4] at h
        exact absurd h (by simp)
      · rw [if_neg h4] at h
        rcases hr : MapSpace s m.c (n + 1) with _ | r
        · rw [hr] at h
          exact absurd h (by simp)
        · rw [hr] at h
          obtain ⟨h1, h2, h3, hf, L', hout, hrel⟩ := ih _ _ _ _ _ h
          refine ⟨h1, h2, h3, hf, { m with space := n + 1 } :: L', ?_, ?_⟩
          · rw [hout, List.reverse_cons]
            simp
          · exact List.Forall₂.cons ⟨rfl, rfl, rfl, rfl, rfl, rfl⟩ hrel

theorem mapStage_isSome :
    ∀ (L : List MoveType) (s : GameState) (n : Nat) (acc : List MoveType),
      (∀ m ∈ L, InBounds s.w s.h m.c) → n + L.length ≤ 3 →
      (mapStage s L n acc).isSome = true := by
  intro L
  induction L with
  | nil => intro s n acc _ _; rfl
  | cons m L ih =>
    intro s n acc hb hn
    simp only [mapStage]
    by_cases ht : 0 < (s.grid m.c).space
    · rw [if_pos ht]
      refine ih s n _ (fun m' hm' => hb m' (List.mem_cons_of_mem _ hm')) ?_
      simp only [List.length_cons] at hn
      omega
    · rw [if_neg ht]
      have h4 : ¬ (4 ≤ n + 1) := by
        simp only [List.length_cons] at hn
        omega
      rw [if_neg h4]
      have hms := MapSpace_isSome s m.c (n + 1)
        (hb m (List.mem_cons_self _ _)) (by omega)
      rcases hr : MapSpace s m.c (n + 1) with _ | r
      · rw [hr] at hms
        simp at hms
      · simp only [hr]
        refine ih _ (n + 1) _ (fun m' hm' => hb m' (List.mem_cons_of_mem _ hm')) ?_
        simp only [List.length_cons] at hn
        omega

/-! ## The marking stage computed as a map plus an all-small flag -/

theorem markSmall_eq (s : GameState) (len : Nat) :
    ∀ (L : List MoveType) (a : Bool),
      markSmall s len L a =
        (L.map (markOne s len),
         a && L.all (fun m => decide (0 < m.nlonger) ||
           decide ((s.spaces.getD ((s.grid m.c).space) default).size < len))) := by
  intro L
  induction L with
  | nil => intro a; simp [markSmall]
  | cons m L ih =>
    intro a
    unfold markSmall
    by_cases hl : 0 < m.nlonger
    · rw [if_pos hl, ih]
      simp only [List.map_cons, List.all_cons, markOne, if_pos hl, Prod.mk.injEq]
      refine ⟨trivial, ?_⟩
      rw [decide_eq_true hl]
      simp
    · rw [if_neg hl]
      by_cases hsz : (s.spaces.getD ((s.grid m.c).space) default).size < len
      · rw [if_pos hsz, ih]
        simp only [List.map_cons, List.all_cons, markOne, if_neg hl, if_pos hsz,
          Prod.mk.injEq]
        refine ⟨trivial, ?_⟩
        rw [decide_eq_true hsz, decide_eq_false hl]
        simp
      · rw [if_neg hsz, ih]
        simp only [List.map_cons, List.all_cons, markOne, if_neg hl, if_neg hsz,
          Prod.mk.injEq]
        refine ⟨trivial, ?_⟩
        rw [decide_eq_false hsz, decide_eq_false hl]
        simp

/-! ## The final decision loop -/

theorem largestMove_ge_start (s : GameState) :
    ∀ (ms : List MoveType) (b : MoveType),
      spaceSizeOf s b ≤ spaceSizeOf s (largestMove s b ms) := by
  intro ms
  induction ms with
  | nil => intro b; exact le_refl _
  | cons mv ms ih =>
    intro b
    unfold largestMove
    simp only [List.foldl_cons]
    by_cases hlt : spaceSizeOf s b < spaceSizeOf s mv
    · rw [if_pos hlt]
      exact le_trans (le_of_lt hlt) (ih mv)
    · rw [if_neg hlt]
      exact ih b

theorem largestMove_max (s : GameState) :
    ∀ (ms : List MoveType) (b : MoveType) (m : MoveType), m ∈ ms →
      spaceSizeOf s m ≤ spaceSizeOf s (largestMove s b ms) := by
  intro ms
  induction ms with
  | nil =>
    intro b m hm
    simp at hm
  | cons mv ms ih =>
    intro b m hm
    unfold largestMove
    simp only [List.foldl_cons]
    rcases List.mem_cons.mp hm with rfl | hm'
    · by_cases hlt : spaceSizeOf s b < spaceSizeOf s m
      · rw [if_pos hlt]
        exact largestMove_ge_start s ms m
      · rw [if_neg hlt]
        exact le_trans (not_lt.mp hlt) (largestMove_ge_start s ms b)
    · by_cases hlt : spaceSizeOf s b < spaceSizeOf s mv
      · rw [if_pos hlt]
        exact ih mv m hm'
      · rw [if_neg hlt]
        exact ih b m hm'

theorem chooseGo_singleton (s : GameState) (m : MoveType) (aL aS : Bool) :
    chooseGo s [m] aL aS [m] none = some m.dir := by
  simp only [chooseGo]
  by_cases hsm : m.smallSpace = true
  · simp [hsm]
  · by_cases hnl : 0 < m.nlonger
    · simp [hsm, hnl]
    · by_cases hfd : (s.grid m.c).isFood = true
      · simp [hsm, hnl, hfd]
      · by_cases hns : 0 < m.nshorter
        · simp [hsm, hnl, hfd, hns]
        · simp [hsm, hnl, hfd, hns, chooseGo]

theorem chooseGo_none_char (s : GameState) (moves : List MoveType) (aL aS : Bool) :
    ∀ (rest : List MoveType) (least : Option (String × Int)),
      chooseGo s moves aL aS rest least = none →
      least = none ∧ ∀ m ∈ rest,
        (m.smallSpace = true ∧ aS = false ∧ moves.length ≠ 1) ∨
        (m.smallSpace = false ∧ 0 < m.nlonger ∧ aL = false ∧ moves.length ≠ 1) := by
  intro rest
  induction rest with
  | nil =>
    intro least h
    cases least with
    | none => exact ⟨rfl, by simp⟩
    | some best => exact absurd h (by simp [chooseGo])
  | cons m rest ih =>
    intro least h
    simp only [chooseGo] at h
    by_cases hsm : m.smallSpace = true
    · rw [if_pos hsm] at h
      by_cases hlen : (moves.length == 1) = true
      · rw [if_pos hlen] at h
        exact absurd h (by simp)
      · rw [if_neg hlen] at h
        by_cases haS : aS = true
        · rw [if_pos haS] at h
          exact absurd h (by simp)
        · rw [if_neg haS] at h
          obtain ⟨hl, hall⟩ := ih least h
          refine ⟨hl, ?_⟩
          intro m' hm'
          rcases List.mem_cons.mp hm' with rfl | hm'
          · exact Or.inl ⟨hsm, by simpa using haS, by simpa using hlen⟩
          · exact hall m' hm'
    · rw [if_neg hsm] at h
      by_cases hnl : 0 < m.nlonger
      · rw [if_pos hnl] at h
        by_cases hlen : (moves.length == 1) = true
        · rw [if_pos hlen] at h
          exact absurd h (by simp)
        · rw [if_neg hlen] at h
          by_cases haL : aL = true
          · rw [if_pos haL] at h
            exact absurd h (by simp)
          · rw [if_neg haL] at h
            obtain ⟨hl, hall⟩ := ih least h
            refine ⟨hl, ?_⟩
            intro m' hm'
            rcases List.mem_cons.mp hm' with rfl | hm'
            · exact Or.inr ⟨by simpa using hsm, hnl, by simpa using haL,
                by simpa using hlen⟩
            · exact hall m' hm'
      · rw [if_neg hnl] at h
        by_cases hfd : (s.grid m.c).isFood = true
        · rw [if_pos hfd] at h
          exact absurd h (by simp)
        · rw [if_neg hfd] at h
          by_cases hns : 0 < m.nshorter
          · rw [if_pos hns] at h
            exact absurd h (by simp)
          · rw [if_neg hns] at h
            split at h
            · obtain ⟨hl, _⟩ := ih _ h
              exact absurd hl (by simp)
            · split at h
              · obtain ⟨hl, _⟩ := ih _ h
                exact absurd hl (by simp)
              · obtain ⟨hl, _⟩ := ih _ h
                exact absurd hl (by simp)

theorem chooseGo_good (s : GameState) (moves : List MoveType) (aL aS : Bool)
    (haS : aS = false) (haL : aL = false) (hlen : moves.length ≠ 1) :
    ∀ (rest : List MoveType) (least : Option (String × Int)) (d : String),
      (∀ p, least = some p →
        ∃ m ∈ moves, m.nlonger = 0 ∧ m.smallSpace = false ∧ m.dir = p.1) →
      (∀ m ∈ rest, m ∈ moves) →
      chooseGo s moves aL aS rest least = some d →
      ∃ m ∈ moves, m.nlonger = 0 ∧ m.smallSpace = false ∧ m.dir = d := by
  intro rest
  induction rest with
  | nil =>
    intro least d hleast hsub h
    cases least with
    | none => exact absurd h (by simp [chooseGo])
    | some best =>
      obtain rfl : best.1 = d := by simpa [chooseGo] using h
      exact hleast best rfl
  | cons m rest ih =>
    intro least d hleast hsub h
    simp only [chooseGo] at h
    by_cases hsm : m.smallSpace = true
    · rw [if_pos hsm] at h
      by_cases hl1 : (moves.length == 1) = true
      · exact absurd (by simpa using hl1) hlen
      · rw [if_neg hl1, if_neg (by simp [haS])] at h
        exact ih least d hleast (fun m' hm' => hsub m' (List.mem_cons_of_mem _ hm')) h
    · rw [if_neg hsm] at h
      by_cases hnl : 0 < m.nlonger
      · rw [if_pos hnl] at h
        by_cases hl1 : (moves.length == 1) = true
        · exact absurd (by simpa using hl1) hlen
        · rw [if_neg hl1, if_neg (by simp [haL])] at h
          exact ih least d hleast (fun m' hm' => hsub m' (List.mem_cons_of_mem _ hm')) h
      · rw [if_neg hnl] at h
        by_cases hfd : (s.grid m.c).isFood = true
        · rw [if_pos hfd] at h
          obtain rfl : m.dir = d := by simpa using h
          exact ⟨m, hsub m (List.mem_cons_self _ _), by omega, by simpa using hsm, rfl⟩
        · rw [if_neg hfd] at h
          by_cases hns : 0 < m.nshorter
          · rw [if_pos hns] at h
            obtain rfl : m.dir = d := by simpa using h
            exact ⟨m, hsub m (List.mem_cons_self _ _), by omega, by simpa using hsm, rfl⟩
          · rw [if_neg hns] at h
            have hmgood : ∀ (dd : Int), ∀ p : String × Int,
                some (m.dir, dd) = some p →
                ∃ mg ∈ moves, mg.nlonger = 0 ∧ mg.smallSpace = false ∧ mg.dir = p.1 := by
              intro dd p hp
              obtain rfl : (m.dir, dd) = p := by simpa using hp
              exact ⟨m, hsub m (List.mem_cons_self _ _), by omega,
                by simpa using hsm, rfl⟩
            split at h
            · exact ih _ d (hmgood _)
                (fun m' hm' => hsub m' (List.mem_cons_of_mem _ hm')) h
            · split at h
              · exact ih _ d (hmgood _)
                  (fun m' hm' => hsub m' (List.mem_cons_of_mem _ hm')) h
              · exact ih _ d hleast
                  (fun m' hm' => hsub m' (List.mem_cons_of_mem _ hm')) h

theorem chooseGo_allSmall (s : GameState) (aL : Bool) (m0 : MoveType)
    (ms : List MoveType) (hall : ∀ m ∈ m0 :: ms, m.smallSpace = true) :
    chooseGo s (m0 :: ms) aL true (m0 :: ms) none =
      some (largestMove s m0 ms).dir := by
  simp only [chooseGo]
  rw [if_pos (hall m0 (List.mem_cons_self _ _))]
  by_cases hlen : ((m0 :: ms).length == 1) = true
  · rw [if_pos hlen]
    have hms : ms = [] := by
      have : ms.length = 0 := by simpa using hlen
      exact List.eq_nil_of_length_eq_zero this
    subst hms
    rfl
  · rw [if_neg hlen]
    simp

/-! ## Glue: from FindMove to the final loop over the marked moves -/

theorem forall₂_mem_right {α β : Type _} {R : α → β → Prop} :
    ∀ {l : List α} {l' : List β}, List.Forall₂ R l l' →
      ∀ b ∈ l', ∃ a ∈ l, R a b := by
  intro l l' h
  induction h with
  | nil => simp
  | @cons a b l l' hR hrest ih =>
    intro b' hb'
    rcases List.mem_cons.mp hb' with rfl | hb'
    · exact ⟨a, List.mem_cons_self _ _, hR⟩
    · rcases ih b' hb' with ⟨a', ha', hR'⟩
      exact ⟨a', List.mem_cons_of_mem _ ha', hR'⟩

theorem forall₂_mem_left {α β : Type _} {R : α → β → Prop} :
    ∀ {l : List α} {l' : List β}, List.Forall₂ R l l' →
      ∀ a ∈ l, ∃ b ∈ l', R a b := by
  intro l l' h
  induction h with
  | nil => simp
  | @cons a b l l' hR hrest ih =>
    intro a' ha'
    rcases List.mem_cons.mp ha' with rfl | ha'
    · exact ⟨b, List.mem_cons_self _ _, hR⟩
    · rcases ih a' ha' with ⟨b', hb', hR'⟩
      exact ⟨b', List.mem_cons_of_mem _ hb', hR'⟩

theorem forall₂_map_eq {α β γ : Type _} {R : α → β → Prop} (f : α → γ) (g : β → γ)
    (hfg : ∀ a b, R a b → g b = f a) :
    ∀ {l : List α} {l' : List β}, List.Forall₂ R l l' → l'.map g = l.map f := by
  intro l l' h
  induction h with
  | nil => rfl
  | cons hR _ ih => simp [ih, hfg _ _ hR]

theorem FindMove_turn_eq {t : Nat} {b : RawBoard} {y : RawSnake} {pf : List Coord}
    {s : GameState} {own : SnakeState} {rest : List SnakeState} {s' : GameState}
    {moves2 : List MoveType}
    (hs : Initialize t b y pf = some s) (hsn : s.snakes = own :: rest) (ht : 1 ≤ t)
    (hmap : mapStage s ((candidateMoves s own.head).map
      (annotateThreat s own.head own.length)) 0 [] = some (s', moves2)) :
    FindMove t b y pf =
      chooseGo s' (markSmall s' own.length moves2 true).1
        (((candidateMoves s own.head).map
          (annotateThreat s own.head own.length)).all (fun m => !(m.nlonger == 0)))
        (markSmall s' own.length moves2 true).2
        (markSmall s' own.length moves2 true).1 none := by
  rw [FindMove_eq_after hs, findMoveAfter_cons hsn, findMoveOwn_pos ht]
  unfold findMoveTurn
  simp only [hmap]

/-- The relation `mapStage` preserves between a candidate and its
region-tagged copy. -/
theorem mapStage_pipeline_facts {s : GameState} {myHead : Coord} {myLength : Nat}
    {s' : GameState} {moves2 : List MoveType}
    (hmap : mapStage s ((candidateMoves s myHead).map
      (annotateThreat s myHead myLength)) 0 [] = some (s', moves2)) :
    moves2.length = (candidateMoves s myHead).length ∧
    (∀ m ∈ moves2, m.smallSpace = false) ∧
    moves2.map (fun m => m.dir) = (candidateMoves s myHead).map (fun m => m.dir) ∧
    (∀ m2 ∈ moves2, ∃ m1 ∈ (candidateMoves s myHead).map
        (annotateThreat s myHead myLength),
        m1.nlonger = m2.nlonger ∧ m1.dir = m2.dir) ∧
    (∀ m1 ∈ (candidateMoves s myHead).map (annotateThreat s myHead myLength),
        ∃ m2 ∈ moves2, m1.nlonger = m2.nlonger) := by
  obtain ⟨_, _, _, _, L', hout, hrel⟩ := mapStage_char _ _ _ _ _ _ hmap
  have hout' : moves2 = L' := by simpa using hout
  subst hout'
  have hm1small : ∀ m1 ∈ (candidateMoves s myHead).map
      (annotateThreat s myHead myLength), m1.smallSpace = false := by
    intro m1 hm1
    rcases List.mem_map.mp hm1 with ⟨m0, hm0, rfl⟩
    rw [(annotateThreat_preserves s myHead myLength m0).2.2.2]
    exact (candidateMoves_fresh hm0).2.2.2.2
  have hm1dir : ∀ m1 ∈ (candidateMoves s myHead).map
      (annotateThreat s myHead myLength), True := fun _ _ => trivial
  refine ⟨?_, ?_, ?_, ?_, ?_⟩
  · rw [hrel.length_eq.symm]
    simp
  · intro m hm
    rcases forall₂_mem_right hrel m hm with ⟨m1, hm1, hR⟩
    rw [hR.2.2.2.2.2]
    exact hm1small m1 hm1
  · have hmapdir := forall₂_map_eq (fun m : MoveType => m.dir)
      (fun m : MoveType => m.dir) (fun a b h => h.1) hrel
    rw [hmapdir, List.map_map]
    have : (fun m : MoveType => m.dir) ∘ annotateThreat s myHead myLength =
        fun m : MoveType => m.dir := by
      funext m0
      exact (annotateThreat_preserves s myHead myLength m0).1
    rw [this]
  · intro m2 hm2
    rcases forall₂_mem_right hrel m2 hm2 with ⟨m1, hm1, hR⟩
    exact ⟨m1, hm1, hR.2.2.1.symm, hR.1.symm⟩
  · intro m1 hm1
    rcases forall₂_mem_left hrel m1 hm1 with ⟨m2, hm2, hR⟩
    exact ⟨m2, hm2, hR.2.2.1.symm⟩

/-! ## Facts about the marking body and the all-small flag -/

theorem markOne_preserves (s : GameState) (len : Nat) (m : MoveType) :
    (markOne s len m).dir = m.dir ∧ (markOne s len m).c = m.c ∧
    (markOne s len m).nlonger = m.nlonger ∧
    (markOne s len m).nshorter = m.nshorter ∧
    (markOne s len m).space = m.space := by
  unfold markOne
  by_cases h1 : 0 < m.nlonger
  · rw [if_pos h1]
    exact ⟨rfl, rfl, rfl, rfl, rfl⟩
  · rw [if_neg h1]
    by_cases h2 : (s.spaces.getD ((s.grid m.c).space) default).size < len
    · rw [if_pos h2]
      exact ⟨rfl, rfl, rfl, rfl, rfl⟩
    · rw [if_neg h2]
      exact ⟨rfl, rfl, rfl, rfl, rfl⟩

theorem markOne_of_pos {s : GameState} {len : Nat} {m : MoveType}
    (h : 0 < m.nlonger) : markOne s len m = m := by
  unfold markOne
  rw [if_pos h]

theorem markOne_of_not_small {s : GameState} {len : Nat} {m : MoveType}
    (h : m.nlonger = 0)
    (h2 : ¬ (s.spaces.getD ((s.grid m.c).space) default).size < len) :
    markOne s len m = m := by
  unfold markOne
  rw [if_neg (by omega), if_neg h2]

theorem markOne_small_char {s : GameState} {len : Nat} {m : MoveType}
    (h : m.nlonger = 0) :
    (markOne s len m).smallSpace =
      (m.smallSpace ||
        decide ((s.spaces.getD ((s.grid m.c).space) default).size < len)) := by
  unfold markOne
  rw [if_neg (by omega)]
  by_cases h2 : (s.spaces.getD ((s.grid m.c).space) default).size < len
  · rw [if_pos h2, decide_eq_true h2, Bool.or_true]
  · rw [if_neg h2, decide_eq_false h2, Bool.or_false]

theorem markSmall_fst_eq (s : GameState) (len : Nat) (L : List MoveType) :
    (markSmall s len L true).1 = L.map (markOne s len) := by
  rw [markSmall_eq]

theorem markSmall_flag_true {s : GameState} {len : Nat} {L : List MoveType}
    (h : ∀ m ∈ L, 0 < m.nlonger ∨
      (s.spaces.getD ((s.grid m.c).space) default).size < len) :
    (markSmall s len L true).2 = true := by
  rw [markSmall_eq]
  simp only [Bool.true_and]
  rw [List.all_eq_true]
  intro m hm
  rcases h m hm with h1 | h1
  · rw [decide_eq_true h1, Bool.true_or]
  · rw [decide_eq_true h1, Bool.or_true]

theorem markSmall_flag_false {s : GameState} {len : Nat} {L : List MoveType}
    {m : MoveType} (hm : m ∈ L) (h1 : m.nlonger = 0)
    (h2 : ¬ (s.spaces.getD ((s.grid m.c).space) default).size < len) :
    (markSmall s len L true).2 = false := by
  rw [markSmall_eq]
  simp only [Bool.true_and]
  refine Bool.eq_false_iff.mpr ?_
  intro hall
  rw [List.all_eq_true] at hall
  have hp := hall m hm
  have hnl : ¬ 0 < m.nlonger := by omega
  rw [decide_eq_false hnl, decide_eq_false h2] at hp
  exact absurd hp (by simp)

theorem marked_map_dir (s : GameState) (len : Nat) (L : List MoveType) :
    (L.map (markOne s len)).map (fun m => m.dir) = L.map (fun m => m.dir) := by
  rw [List.map_map]
  refine List.map_congr_left ?_
  intro m _
  exact (markOne_preserves s len m).1

theorem nodup_map_inj {α β : Type _} {f : α → β} :
    ∀ {l : List α}, (l.map f).Nodup → ∀ x ∈ l, ∀ y ∈ l, f x = f y → x = y := by
  intro l
  induction l with
  | nil =>
    intro _ x hx
    simp at hx
  | cons a l ih =>
    intro hnd x hx y hy hfxy
    simp only [List.map_cons, List.nodup_cons] at hnd
    rcases List.mem_cons.mp hx with rfl | hx'
    · rcases List.mem_cons.mp hy with rfl | hy'
      · rfl
      · refine absurd ?_ hnd.1
        rw [hfxy]
        exact List.mem_map_of_mem f hy'
    · rcases List.mem_cons.mp hy with rfl | hy'
      · refine absurd ?_ hnd.1
        rw [hfxy.symm]
        exact List.mem_map_of_mem f hx'
      · exact ih hnd.2 x hx' y hy' hfxy

theorem eq_some_getD {α : Type _} {o : Option α} (d : α) (h : o.isSome = true) :
    o = some (o.getD d) := by
  cases o with
  | none => simp at h
  | some a => rfl

/-! ## C3: the single-candidate short circuit -/

/-- C3: on every turn >= 1 snapshot in which exactly one neighbour of
our head is a legal candidate, `FindMove` returns that candidate's
direction, whatever the food, threat and space analysis would have
said about it (in the evolved code the single candidate flows through
all stages but every branch of the final loop returns it). -/
theorem C3_single_candidate {t : Nat} {b : RawBoard} {y : RawSnake}
    {pf : List Coord} {s : GameState} {own : SnakeState}
    {rest : List SnakeState} {m : MoveType}
    (hs : Initialize t b y pf = some s) (hsn : s.snakes = own :: rest)
    (ht : 1 ≤ t) (hm : candidateMoves s own.head = [m])
    (hb : InBounds s.w s.h m.c) :
    FindMove t b y pf = some m.dir := by
  have hmv1 : (candidateMoves s own.head).map (annotateThreat s own.head own.length)
      = [annotateThreat s own.head own.length m] := by
    rw [hm]
    rfl
  have hsome : (mapStage s [annotateThreat s own.head own.length m] 0 []).isSome
      = true := by
    refine mapStage_isSome _ s 0 [] ?_ (by simp)
    intro m' hm'
    rcases List.mem_cons.mp hm' with rfl | hm''
    · rw [(annotateThreat_preserves s own.head own.length m).2.1]
      exact hb
    · simp at hm''
  rcases hmp : mapStage s [annotateThreat s own.head own.length m] 0 [] with _ | sm
  · rw [hmp] at hsome
    simp at hsome
  · obtain ⟨s', out⟩ := sm
    have hmap : mapStage s ((candidateMoves s own.head).map
        (annotateThreat s own.head own.length)) 0 [] = some (s', out) := by
      rw [hmv1]
      exact hmp
    have hfm := FindMove_turn_eq hs hsn ht hmap
    obtain ⟨_, _, _, _, L', hout, hrel⟩ := mapStage_char _ _ _ _ _ _ hmp
    rw [List.forall₂_cons_left_iff] at hrel
    obtain ⟨m2, u', hR, hrel2, rfl⟩ := hrel
    rw [List.forall₂_nil_left_iff] at hrel2
    subst hrel2
    simp only [List.reverse_nil, List.nil_append] at hout
    subst hout
    have h1 : (markSmall s' own.length [m2] true).1 =
        [markOne s' own.length m2] := by
      rw [markSmall_fst_eq]
      rfl
    rw [hfm, h1, chooseGo_singleton,
      (markOne_preserves s' own.length m2).1, hR.1,
      (annotateThreat_preserves s own.head own.length m).1]

/-- Witness for C3 on the concrete snapshot `boardC3`: the single
candidate is "down" and `FindMove` returns it. -/
theorem C3_single_candidate_witness : FindMove 5 boardC3 youC3 [] = some mC3.dir :=
  @C3_single_candidate 5 boardC3 youC3 [] sC3 ownC3 (sC3.snakes.tail) mC3
    (eq_some_getD default (by decide)) (by decide) (by decide) (by decide)
    (by decide)

/-! ## C4: the small-space filter and the all-small fallback -/

/-- C4: in Stage 3, an unthreatened candidate whose region is not
bounded solely by our own snake is marked too small exactly when the
region's cell count falls below our length; and when every surviving
candidate is marked too small, `FindMove` returns the candidate whose
region is largest (the first such on ties) instead of failing. -/
theorem C4_small_space_filter {t : Nat} {b : RawBoard} {y : RawSnake}
    {pf : List Coord} {s : GameState} {own : SnakeState}
    {rest : List SnakeState} {s' : GameState} {moves2 : List MoveType}
    (hs : Initialize t b y pf = some s) (hsn : s.snakes = own :: rest)
    (ht : 1 ≤ t)
    (hmap : mapStage s ((candidateMoves s own.head).map
      (annotateThreat s own.head own.length)) 0 [] = some (s', moves2)) :
    (∀ m ∈ moves2, m.nlonger = 0 →
      (s'.spaces.getD ((s'.grid m.c).space) default).self = false →
      ((markOne s' own.length m).smallSpace = true ↔
        (s'.spaces.getD ((s'.grid m.c).space) default).size < own.length)) ∧
    (∀ m0 ms, (markSmall s' own.length moves2 true).1 = m0 :: ms →
      (∀ m ∈ m0 :: ms, m.smallSpace = true) →
      FindMove t b y pf = some (largestMove s' m0 ms).dir ∧
      ∀ m ∈ m0 :: ms, spaceSizeOf s' m ≤ spaceSizeOf s' (largestMove s' m0 ms)) := by
  obtain ⟨hlen2, hsm2, hdir2, hright, hleft⟩ := mapStage_pipeline_facts hmap
  constructor
  · intro m hm hnl hself
    rw [markOne_small_char hnl, hsm2 m hm, Bool.false_or]
    exact ⟨fun h => of_decide_eq_true h, fun h => decide_eq_true h⟩
  · intro m0 ms hmk hall
    have hfm := FindMove_turn_eq hs hsn ht hmap
    have hflag : (markSmall s' own.length moves2 true).2 = true := by
      refine markSmall_flag_true ?_
      intro m2 hm2
      by_cases hnl : 0 < m2.nlonger
      · exact Or.inl hnl
      · right
        have hnl0 : m2.nlonger = 0 := by omega
        have hmm : markOne s' own.length m2 ∈
            (markSmall s' own.length moves2 true).1 := by
          rw [markSmall_fst_eq]
          exact List.mem_map_of_mem _ hm2
        rw [hmk] at hmm
        have hsmall := hall _ hmm
        rw [markOne_small_char hnl0, hsm2 m2 hm2, Bool.false_or] at hsmall
        exact of_decide_eq_true hsmall
    rw [hflag, hmk] at hfm
    refine ⟨?_, ?_⟩
    · rw [hfm]
      exact chooseGo_allSmall s' _ m0 ms hall
    · intro m hm
      rcases List.mem_cons.mp hm with rfl | hm'
      · exact largestMove_ge_start s' ms m
      · exact largestMove_max s' ms m0 m hm'

/-- Witness for C4: the exclusion criterion instantiated on the
(enemy-bounded, hence non-self-bounded) region of the `boardC3`
candidate, and the all-small fallback instantiated on `boardC4w`, whose
two candidates both flood into a 4-cell region while our snake has
length 6. -/
theorem C4_small_space_filter_witness :
    ((markOne mapC3.1 ownC3.length m2C3).smallSpace = true ↔
      (mapC3.1.spaces.getD ((mapC3.1.grid m2C3.c).space) default).size <
        ownC3.length) ∧
    (FindMove 5 boardC4w youC4w [] =
      some (largestMove mapC4w.1 (markedC4w.headD default) markedC4w.tail).dir ∧
     ∀ m ∈ markedC4w.headD default :: markedC4w.tail,
       spaceSizeOf mapC4w.1 m ≤
         spaceSizeOf mapC4w.1
           (largestMove mapC4w.1 (markedC4w.headD default) markedC4w.tail)) :=
  ⟨(@C4_small_space_filter 5 boardC3 youC3 [] sC3 ownC3 (sC3.snakes.tail)
      mapC3.1 mapC3.2 (eq_some_getD default (by decide)) (by decide) (by decide)
      (eq_some_getD default (by decide))).1 m2C3
      (by decide) (by decide) (by decide),
   (@C4_small_space_filter 5 boardC4w youC4w [] sC4w ownC4w (sC4w.snakes.tail)
      mapC4w.1 mapC4w.2 (eq_some_getD default (by decide)) (by decide) (by decide)
      (eq_some_getD default (by decide))).2
      (markedC4w.headD default) markedC4w.tail (by decide) (by decide)⟩

/-! ## C5 (amended): threatened candidates lose to surviving
unthreatened ones -/

/-- C5 (amended): on a turn >= 1 snapshot with at least two candidates
after marking, some candidate threatened by a longer-or-equal enemy
head, and some unthreatened candidate surviving the space filter
(`smallSpace = false` after marking), `FindMove` returns the direction
of an unthreatened surviving candidate and never that of a threatened
one. -/
theorem C5_unthreatened_preferred {t : Nat} {b : RawBoard} {y : RawSnake}
    {pf : List Coord} {s : GameState} {own : SnakeState}
    {rest : List SnakeState} {s' : GameState} {moves2 : List MoveType}
    (hs : Initialize t b y pf = some s) (hsn : s.snakes = own :: rest)
    (ht : 1 ≤ t)
    (hmap : mapStage s ((candidateMoves s own.head).map
      (annotateThreat s own.head own.length)) 0 [] = some (s', moves2))
    (h2 : 2 ≤ (markSmall s' own.length moves2 true).1.length)
    (hA : ∃ m ∈ (markSmall s' own.length moves2 true).1, 0 < m.nlonger)
    (hB : ∃ m ∈ (markSmall s' own.length moves2 true).1,
      m.nlonger = 0 ∧ m.smallSpace = false) :
    ∃ d, FindMove t b y pf = some d ∧
      (∃ m ∈ (markSmall s' own.length moves2 true).1,
        m.nlonger = 0 ∧ m.smallSpace = false ∧ m.dir = d) ∧
      (∀ m ∈ (markSmall s' own.length moves2 true).1,
        0 < m.nlonger → m.dir ≠ d) := by
  obtain ⟨hlen2, hsm2, hdir2, hright, hleft⟩ := mapStage_pipeline_facts hmap
  have hfm := FindMove_turn_eq hs hsn ht hmap
  obtain ⟨mg, hmg, hmgnl, hmgsm⟩ := hB
  have hmg' := hmg
  rw [markSmall_fst_eq] at hmg'
  obtain ⟨m2, hm2, hm2eq⟩ := List.mem_map.mp hmg'
  have hm2nl : m2.nlonger = 0 := by
    have hp := (markOne_preserves s' own.length m2).2.2.1
    rw [hm2eq] at hp
    omega
  have hm2big : ¬ (s'.spaces.getD ((s'.grid m2.c).space) default).size <
      own.length := by
    intro hlt
    have hchar := @markOne_small_char s' own.length m2 hm2nl
    rw [hm2eq, hsm2 m2 hm2, Bool.false_or, decide_eq_true hlt] at hchar
    rw [hmgsm] at hchar
    exact absurd hchar (by simp)
  have hflag : (markSmall s' own.length moves2 true).2 = false :=
    markSmall_flag_false hm2 hm2nl hm2big
  obtain ⟨m1, hm1mem, hm1nl, _⟩ := hright m2 hm2
  have haL : ((candidateMoves s own.head).map
      (annotateThreat s own.head own.length)).all
      (fun m => !(m.nlonger == 0)) = false := by
    refine Bool.eq_false_iff.mpr ?_
    intro hall
    rw [List.all_eq_true] at hall
    have hx := hall m1 hm1mem
    simp [hm1nl, hm2nl] at hx
  rw [hflag, haL] at hfm
  have hlen1 : (markSmall s' own.length moves2 true).1.length ≠ 1 := by omega
  rcases hres : FindMove t b y pf with _ | d
  · exfalso
    rw [hres] at hfm
    obtain ⟨_, hP⟩ := chooseGo_none_char s' _ false false _ none hfm.symm
    rcases hP mg hmg with ⟨hsm, _, _⟩ | ⟨_, hnl, _, _⟩
    · rw [hmgsm] at hsm
      exact absurd hsm (by simp)
    · omega
  · rw [hres] at hfm
    obtain ⟨mgd, hmgd, hmgdnl, hmgdsm, hmgddir⟩ :=
      chooseGo_good s' _ false false rfl rfl hlen1 _ none d
        (fun p hp => absurd hp (by simp)) (fun m hm => hm) hfm.symm
    refine ⟨d, rfl, ⟨mgd, hmgd, hmgdnl, hmgdsm, hmgddir⟩, ?_⟩
    intro m' hm' hm'nl hdir
    have hnd : ((markSmall s' own.length moves2 true).1.map
        (fun m => m.dir)).Nodup := by
      rw [markSmall_fst_eq, marked_map_dir, hdir2]
      exact candidateMoves_dirs_nodup s own.head
    have heq : m' = mgd := nodup_map_inj hnd m' hm' mgd hmgd
      (by show m'.dir = mgd.dir; rw [hdir, hmgddir])
    rw [heq] at hm'nl
    omega

set_option maxHeartbeats 2000000

-- SLOW_BEGIN
/-- Witness for the amended C5 on `boardC5w`: "left" and "up" are
threatened by the equal-length enemy, "right" and "down" are
unthreatened with ample room; `FindMove` answers an unthreatened
direction (concretely "right"). -/
theorem C5_unthreatened_preferred_witness :
    ∃ d, FindMove 5 boardC5w youC5w [] = some d ∧
      (∃ m ∈ markedC5w, m.nlonger = 0 ∧ m.smallSpace = false ∧ m.dir = d) ∧
      (∀ m ∈ markedC5w, 0 < m.nlonger → m.dir ≠ d) :=
  @C5_unthreatened_preferred 5 boardC5w youC5w [] sC5w ownC5w (sC5w.snakes.tail)
    mapC5w.1 mapC5w.2 (eq_some_getD default (by decide)) (by decide) (by decide)
    (eq_some_getD default (by decide)) (by decide) (by decide) (by decide)
-- SLOW_END

/-! ## C10: the turn-0 food read and the food-free later turns -/

/-- C10: the turn-0 branch reads the nearest food entry before any
other check, so an empty food list makes the call die (the `s.food[0]`
index panic, `none` here) while any non-empty food list yields a
direction; and the turn >= 1 pipeline never requires food: with
between one and three candidates it always returns a direction. -/
theorem C10_turn_zero_needs_food :
    (∀ (b : RawBoard) (y : RawSnake) (pf : List Coord) (s : GameState),
      Initialize 0 b y pf = some s → b.food = [] →
      FindMove 0 b y pf = none) ∧
    (∀ (b : RawBoard) (y : RawSnake) (pf : List Coord) (s : GameState)
       (own : SnakeState) (rest : List SnakeState),
      Initialize 0 b y pf = some s → s.snakes = own :: rest → b.food ≠ [] →
      (FindMove 0 b y pf).isSome = true) ∧
    (∀ (t : Nat) (b : RawBoard) (y : RawSnake) (pf : List Coord) (s : GameState)
       (own : SnakeState) (rest : List SnakeState),
      Initialize t b y pf = some s → s.snakes = own :: rest → 1 ≤ t →
      InBounds s.w s.h own.head →
      1 ≤ (candidateMoves s own.head).length →
      (candidateMoves s own.head).length ≤ 3 →
      (FindMove t b y pf).isSome = true) := by
  refine ⟨?_, ?_, ?_⟩
  · intro b y pf s hs hbf
    obtain ⟨hd, tl, hyb, hne, rfl⟩ := Initialize_char hs
    have hfood : (builtState 0 b hd pf).food = [] := by
      rw [builtState_food, hbf]
      rfl
    rw [FindMove_eq_after hs]
    rcases hsn : (builtState 0 b hd pf).snakes with _ | ⟨own, rest⟩
    · unfold findMoveAfter
      rw [hsn]
    · rw [findMoveAfter_cons hsn]
      exact findMoveOwn_zero_nofood hfood
  · intro b y pf s own rest hs hsn hbf
    obtain ⟨hd, tl, hyb, hne, rfl⟩ := Initialize_char hs
    have hfne : (builtState 0 b hd pf).food ≠ [] := by
      rcases hbfc : b.food with _ | ⟨fh, fl⟩
      · exact absurd hbfc hbf
      · have hdne := (dedup_cons_head fh fl ⟨0,0⟩).1
        rcases hdc : dedup (fh :: fl) with _ | ⟨d0, ds⟩
        · exact absurd hdc hdne
        · have hmem0 : ∃ ff, ff ∈ mkFoodStates hd
              (builtState 0 b hd pf).snakes (fh :: fl) := by
            unfold mkFoodStates
            rw [hdc]
            simp only [List.map_cons]
            exact ⟨_, List.mem_cons_self _ _⟩
          obtain ⟨ff, hff⟩ := hmem0
          have hff' : ff ∈ (builtState 0 b hd pf).food := by
            rw [builtState_food, hbfc]
            exact (sortByLt_mem _ _ _).mpr hff
          exact List.ne_nil_of_mem hff'
    rcases hfc : (builtState 0 b hd pf).food with _ | ⟨f0, fr⟩
    · exact absurd hfc hfne
    · rw [FindMove_eq_after hs, findMoveAfter_cons hsn, findMoveOwn_zero_food hfc]
      rfl
  · intro t b y pf s own rest hs hsn ht hb h1 h3
    have hsome : (mapStage s ((candidateMoves s own.head).map
        (annotateThreat s own.head own.length)) 0 []).isSome = true := by
      refine mapStage_isSome _ s 0 [] ?_ ?_
      · intro m' hm'
        rcases List.mem_map.mp hm' with ⟨m0, hm0, rfl⟩
        rw [(annotateThreat_preserves s own.head own.length m0).2.1]
        exact candidateMoves_inbounds hb hm0
      · rw [List.length_map]
        omega
    rcases hmp : mapStage s ((candidateMoves s own.head).map
        (annotateThreat s own.head own.length)) 0 [] with _ | sm
    · rw [hmp] at hsome
      simp at hsome
    · obtain ⟨s', moves2⟩ := sm
      obtain ⟨hlen2, hsm2, hdir2, hright, hleft⟩ := mapStage_pipeline_facts hmp
      have hfm := FindMove_turn_eq hs hsn ht hmp
      rcases hres : FindMove t b y pf with _ | d
      · exfalso
        rw [hres] at hfm
        obtain ⟨_, hP⟩ := chooseGo_none_char s' _ _ _ _ none hfm.symm
        by_cases hex : ∃ m2 ∈ moves2, m2.nlonger = 0 ∧
            ¬ (s'.spaces.getD ((s'.grid m2.c).space) default).size < own.length
        · obtain ⟨m2, hm2, hm2nl, hm2big⟩ := hex
          have hone : markOne s' own.length m2 = m2 :=
            markOne_of_not_small hm2nl hm2big
          have hmm : m2 ∈ (markSmall s' own.length moves2 true).1 := by
            rw [markSmall_fst_eq, ← hone]
            exact List.mem_map_of_mem _ hm2
          rcases hP m2 hmm with ⟨hsm, _, _⟩ | ⟨_, hnl, _, _⟩
          · rw [hsm2 m2 hm2] at hsm
            exact absurd hsm (by simp)
          · omega
        · push_neg at hex
          have hflag : (markSmall s' own.length moves2 true).2 = true := by
            refine markSmall_flag_true ?_
            intro m2 hm2
            by_cases hnl : 0 < m2.nlonger
            · exact Or.inl hnl
            · exact Or.inr (hex m2 hm2 (by omega))
          have hm2ne : moves2 ≠ [] := by
            intro hnil
            rw [hnil] at hlen2
            simp at hlen2
            omega
          rcases hm2c : moves2 with _ | ⟨m2, ml⟩
          · exact absurd hm2c hm2ne
          · have hm2 : m2 ∈ moves2 := by
              rw [hm2c]
              exact List.mem_cons_self _ _
            by_cases hnl : 0 < m2.nlonger
            · have hone : markOne s' own.length m2 = m2 := markOne_of_pos hnl
              have hmm : m2 ∈ (markSmall s' own.length moves2 true).1 := by
                rw [markSmall_fst_eq, ← hone]
                exact List.mem_map_of_mem _ hm2
              rcases hP m2 hmm with ⟨hsm, _, _⟩ | ⟨_, _, haL, _⟩
              · rw [hsm2 m2 hm2] at hsm
                exact absurd hsm (by simp)
              · have hnall : ¬ (((candidateMoves s own.head).map
                    (annotateThreat s own.head own.length)).all
                    (fun m => !(m.nlonger == 0)) = true) := by
                  rw [haL]
                  simp
                rw [List.all_eq_true] at hnall
                push_neg at hnall
                obtain ⟨m1, hm1, hm1p⟩ := hnall
                simp at hm1p
                obtain ⟨m2', hm2', hm2'nl⟩ := hleft m1 hm1
                have hm2'nl0 : m2'.nlonger = 0 := by omega
                have hsmall2' := hex m2' hm2' hm2'nl0
                have hmm' : markOne s' own.length m2' ∈
                    (markSmall s' own.length moves2 true).1 := by
                  rw [markSmall_fst_eq]
                  exact List.mem_map_of_mem _ hm2'
                have hsm' : (markOne s' own.length m2').smallSpace = true := by
                  rw [markOne_small_char hm2'nl0, hsm2 m2' hm2', Bool.false_or]
                  exact decide_eq_true hsmall2'
                rcases hP _ hmm' with ⟨_, haS, _⟩ | ⟨hsmf, _, _, _⟩
                · rw [hflag] at haS
                  exact absurd haS (by simp)
                · rw [hsm'] at hsmf
                  exact absurd hsmf (by simp)
            · have hm2nl0 : m2.nlonger = 0 := by omega
              have hsmall2 := hex m2 hm2 hm2nl0
              have hmm : markOne s' own.length m2 ∈
                  (markSmall s' own.length moves2 true).1 := by
                rw [markSmall_fst_eq]
                exact List.mem_map_of_mem _ hm2
              have hsm' : (markOne s' own.length m2).smallSpace = true := by
                rw [markOne_small_char hm2nl0, hsm2 m2 hm2, Bool.false_or]
                exact decide_eq_true hsmall2
              rcases hP _ hmm with ⟨_, haS, _⟩ | ⟨hsmf, _, _, _⟩
              · rw [hflag] at haS
                exact absurd haS (by simp)
              · rw [hsm'] at hsmf
                exact absurd hsmf (by simp)
      · rfl

/-- Witness for C10: the foodless turn-0 snapshot dies, the turn-0
snapshot with food answers, and the turn-5 single-candidate snapshot
answers without any food on the board. -/
theorem C10_turn_zero_needs_food_witness :
    FindMove 0 boardC10 youC8 [] = none ∧
    (FindMove 0 boardC8 youC8 []).isSome = true ∧
    (FindMove 5 boardC3 youC3 []).isSome = true :=
  ⟨C10_turn_zero_needs_food.1 boardC10 youC8 [] sC10
     (eq_some_getD default (by decide)) rfl,
   C10_turn_zero_needs_food.2.1 boardC8 youC8 [] sC8 ownC8 (sC8.snakes.tail)
     (eq_some_getD default (by decide)) (by decide) (by decide),
   C10_turn_zero_needs_food.2.2 5 boardC3 youC3 [] sC3 ownC3 (sC3.snakes.tail)
     (eq_some_getD default (by decide)) (by decide) (by decide) (by decide)
     (by decide) (by decide)⟩

/-! ## C9 groundwork: tag counting, content stability and reachability -/

theorem floodable_congr {g g' : Grid} (z : Coord)
    (hc : (g' z).content = (g z).content) :
    floodable g' z = floodable g z := by
  unfold floodable GameCell.isEmpty GameCell.isFood GameCell.isTail
  rw [hc]

theorem Reach_congr {g g' : Grid} {w h : Nat} {c : Coord}
    (hc : ∀ q, (g' q).content = (g q).content) :
    ∀ {q : Coord}, Reach g w h c q → Reach g' w h c q := by
  intro q hr
  induction hr with
  | base => exact Reach.base
  | step hy hnb hf ih =>
    exact Reach.step ih hnb (by rw [floodable_congr _ (hc _)]; exact hf)

theorem tagCount_set_new (g : Grid) (w h : Nat) (p : Coord) (i : Nat)
    (hp : InBounds w h p) (hne : (g p).space ≠ i) (v : GameCell)
    (hv : v.space = i) :
    tagCount (gridSet g p v) w h i = tagCount g w h i + 1 := by
  unfold tagCount
  have hset : (gridDomain w h).filter (fun q => ((gridSet g p v) q).space = i) =
      insert p ((gridDomain w h).filter (fun q => (g q).space = i)) := by
    ext q
    simp only [Finset.mem_filter, Finset.mem_insert, gridSet]
    by_cases hq : q = p
    · subst hq
      simp [hv, (mem_gridDomain w h q).mpr hp]
    · simp [hq]
  have hnm : p ∉ (gridDomain w h).filter (fun q => (g q).space = i) := by
    simp only [Finset.mem_filter, not_and]
    intro _
    exact hne
  rw [hset, Finset.card_insert_of_not_mem hnm]

theorem tagCount_congr {g g' : Grid} {w h i : Nat}
    (hpt : ∀ q, (g' q).space = i ↔ (g q).space = i) :
    tagCount g' w h i = tagCount g w h i := by
  unfold tagCount
  congr 1
  ext q
  simp only [Finset.mem_filter]
  exact and_congr_right (fun _ => hpt q)

theorem tagCount_zero_of_lt {g : Grid} {w h n i : Nat}
    (hle : ∀ q, (g q).space ≤ n) (hi : n < i) :
    tagCount g w h i = 0 := by
  unfold tagCount
  rw [Finset.card_eq_zero, Finset.filter_eq_empty_iff]
  intro q _
  have := hle q
  omega

theorem gridSet_self (g : Grid) (c : Coord) (v : GameCell) :
    gridSet g c v c = v := by
  unfold gridSet
  rw [if_pos rfl]

theorem gridSet_other (g : Grid) (c : Coord) (v : GameCell) (q : Coord)
    (hq : q ≠ c) : gridSet g c v q = g q := by
  unfold gridSet
  rw [if_neg hq]

/-! ## C9 groundwork: the grid never holds the unused content value 2,
so an unblocked candidate cell is always floodable -/

theorem gridSet_content_ne_two {g : Grid} (hg : ∀ q, (g q).content ≠ 2)
    (c : Coord) (v : GameCell) (hv : v.content ≠ 2) :
    ∀ q, ((gridSet g c v) q).content ≠ 2 := by
  intro q
  unfold gridSet
  by_cases hq : q = c
  · rw [if_pos hq]
    exact hv
  · rw [if_neg hq]
    exact hg q

theorem foldl_gridSet_body_content_ne_two (sx : Nat) :
    ∀ (segs : List Coord) (g : Grid), (∀ q, (g q).content ≠ 2) →
      ∀ q, ((segs.foldl (fun acc seg => gridSet acc seg (BodyCell sx)) g) q).content
        ≠ 2 := by
  intro segs
  induction segs with
  | nil =>
    intro g hg
    exact hg
  | cons c rest ih =>
    intro g hg
    simp only [List.foldl_cons]
    refine ih _ (gridSet_content_ne_two hg _ _ ?_)
    show (sx + 1) * 3 ≠ 2
    omega

theorem writeSnakes_content_ne_two :
    ∀ (l : List SnakeState) (sx : Nat) (g : Grid), (∀ q, (g q).content ≠ 2) →
      ∀ q, ((writeSnakes l sx g) q).content ≠ 2 := by
  intro l
  induction l with
  | nil =>
    intro sx g hg
    exact hg
  | cons sn rest ih =>
    intro sx g hg
    refine ih _ _ ?_
    refine gridSet_content_ne_two (gridSet_content_ne_two ?_ _ _ ?_) _ _ ?_
    · exact foldl_gridSet_body_content_ne_two sx sn.segments g hg
    · show (sx + 1) * 3 + 1 ≠ 2
      omega
    · show (sx + 1) * 3 + 2 ≠ 2
      omega

theorem writeFood_content_ne_two (l : List Coord) (g : Grid)
    (hg : ∀ q, (g q).content ≠ 2) :
    ∀ q, ((writeFood g l) q).content ≠ 2 := by
  unfold writeFood
  induction l generalizing g with
  | nil => exact hg
  | cons c rest ih =>
    simp only [List.foldl_cons]
    refine ih _ ?_
    refine gridSet_content_ne_two hg _ _ ?_
    show 1 ≠ 2
    omega

theorem builtState_content_ne_two (t : Nat) (b : RawBoard) (hd : Coord)
    (pf : List Coord) (q : Coord) :
    ((builtState t b hd pf).grid q).content ≠ 2 := by
  show ((writeFood (writeSnakes _ 0 emptyGrid) (dedup b.food)) q).content ≠ 2
  apply writeFood_content_ne_two
  apply writeSnakes_content_ne_two
  intro q'
  show (0 : Nat) ≠ 2
  omega

theorem floodable_of_unblocked {s : GameState} {c : Coord}
    (hok : (s.grid c).content ≠ 2) (hbl : isBlocked s c = false) :
    floodable s.grid c = true := by
  unfold isBlocked at hbl
  simp only [Bool.or_eq_false_iff] at hbl
  obtain ⟨⟨hB, hH⟩, hTG⟩ := hbl
  unfold floodable
  simp only [GameCell.isBody, Bool.and_eq_false_iff, decide_eq_false_iff_not,
    not_lt, beq_eq_false_iff_ne, ne_eq] at hB
  simp only [GameCell.isHead, Bool.and_eq_false_iff, decide_eq_false_iff_not,
    not_lt, beq_eq_false_iff_ne, ne_eq] at hH
  simp only [GameCell.isEmpty, GameCell.isFood, GameCell.isTail,
    Bool.or_eq_true, Bool.and_eq_true, beq_iff_eq, decide_eq_true_eq]
  rcases hB with hB | hB <;> rcases hH with hH | hH <;> omega

theorem MapSpace_run {s : GameState} {c : Coord} {space : Nat} {g' : Grid}
    {sp' : SpaceState} {cnt : Nat}
    (h : MapSpace s c space = some (g', sp', cnt)) :
    ∃ r : FloodResult, MapSpaceRun s c space = some r ∧
      r.grid = g' ∧ r.sp = sp' ∧ r.count = cnt := by
  simp only [MapSpace] at h
  unfold MapSpaceRun
  rcases hr : floodGo s.w s.h space (floodFuel s.w s.h) s.grid
      ⟨0, List.replicate (s.snakes.length + 1) false, 0, false, 0⟩ [c] 0 1
      with _ | r
  · rw [hr] at h
    exact absurd h (by simp)
  · rw [hr] at h
    simp only [Option.some.injEq, Prod.mk.injEq] at h
    exact ⟨r, rfl, h.1, h.2.1, h.2.2⟩

/-! ## C9: the master invariant of the flood fill's work loop: content
is untouched, existing tags are never rewritten, new tags all carry the
fill's region id, the cell count tracks the newly tagged cells, and the
work stack stays within three cells per tagged cell plus one -/

theorem floodGo_master (w h space : Nat) (hsp : space ≠ 0) :
    ∀ (fuel : Nat) (g : Grid) (sp : SpaceState) (stack : List Coord)
      (count maxLen : Nat) (r : FloodResult),
      (∀ q ∈ stack, InBounds w h q) →
      floodGo w h space fuel g sp stack count maxLen = some r →
      (∀ q, (r.grid q).content = (g q).content) ∧
      (∀ q, (g q).space ≠ 0 → r.grid q = g q) ∧
      (∀ q, (r.grid q).space ≠ (g q).space →
        (g q).space = 0 ∧ (r.grid q).space = space) ∧
      r.count + untaggedCount r.grid w h = count + untaggedCount g w h ∧
      count ≤ r.count ∧
      tagCount r.grid w h space + count = tagCount g w h space + r.count ∧
      (stack.length ≤ 3 * count + 1 → maxLen ≤ 3 * count + 1 →
        r.maxLen ≤ 3 * r.count + 1) := by
  intro fuel
  induction fuel with
  | zero =>
    intro g sp stack count maxLen r hin heq
    cases stack with
    | nil =>
      simp only [floodGo, Option.some.injEq] at heq
      subst heq
      exact ⟨fun q => rfl, fun q _ => rfl, fun q hq => absurd rfl hq,
        rfl, le_refl _, rfl, fun h1 h2 => h2⟩
    | cons p rest => simp [floodGo] at heq
  | succ fuel ih =>
    intro g sp stack count maxLen r hin heq
    cases stack with
    | nil =>
      simp only [floodGo, Option.some.injEq] at heq
      subst heq
      exact ⟨fun q => rfl, fun q _ => rfl, fun q hq => absurd rfl hq,
        rfl, le_refl _, rfl, fun h1 h2 => h2⟩
    | cons p rest =>
      simp only [floodGo] at heq
      by_cases h0 : (g p).space ≠ 0
      · rw [if_pos h0] at heq
        obtain ⟨c1, c2, c3, c4, c5, c6, c7⟩ := ih g sp rest count maxLen r
          (fun q hq => hin q (List.mem_cons_of_mem _ hq)) heq
        refine ⟨c1, c2, c3, c4, c5, c6, ?_⟩
        intro h1 h2
        refine c7 ?_ h2
        simp only [List.length_cons] at h1
        omega
      · rw [if_neg h0] at heq
        have hq0 : (g p).space = 0 := by omega
        have hpin : InBounds w h p := hin p (List.mem_cons_self _ _)
        have hgp : (gridSet g p ⟨(g p).content, space⟩) p =
            ⟨(g p).content, space⟩ := gridSet_self g p _
        have hgq : ∀ q, q ≠ p →
            (gridSet g p ⟨(g p).content, space⟩) q = g q :=
          fun q hq => gridSet_other g p _ q hq
        obtain ⟨c1, c2, c3, c4, c5, c6, c7⟩ :=
          ih (gridSet g p ⟨(g p).content, space⟩) _ _ (count + 1)
            (max maxLen (floodVisit (gridSet g p ⟨(g p).content, space⟩) w h p
              rest (if (g p).isFood = true then
                { sp with nfood := sp.nfood + 1 } else sp)).1.length) r
            (by
              intro q hq
              rcases (floodStep_foldl_fst_mem _ _ _ _ q).mp hq with hq' | ⟨d, hd, _⟩
              · exact hin q (List.mem_cons_of_mem _ hq')
              · exact visitNeighbours_inbounds w h p hpin (q, d) hd)
            heq
        have huntag :
            untaggedCount (gridSet g p ⟨(g p).content, space⟩) w h + 1 =
              untaggedCount g w h :=
          untaggedCount_set g w h p hpin hq0 _ hsp
        have htagc :
            tagCount (gridSet g p ⟨(g p).content, space⟩) w h space =
              tagCount g w h space + 1 :=
          tagCount_set_new g w h p space hpin (by omega) _ rfl
        refine ⟨?_, ?_, ?_, by omega, by omega, by omega, ?_⟩
        · intro q
          rw [c1 q]
          by_cases hqp : q = p
          · subst hqp
            rw [hgp]
          · rw [hgq q hqp]
        · intro q hq
          have hqp : q ≠ p := by
            intro he
            rw [he, hq0] at hq
            exact hq rfl
          rw [c2 q (by rw [hgq q hqp]; exact hq), hgq q hqp]
        · intro q hq
          by_cases hqp : q = p
          · subst hqp
            refine ⟨hq0, ?_⟩
            have hr2 : r.grid q = gridSet g q ⟨(g q).content, space⟩ q :=
              c2 q (by rw [hgp]; exact hsp)
            rw [hr2, hgp]
          · by_cases hch : (r.grid q).space =
                ((gridSet g p ⟨(g p).content, space⟩) q).space
            · rw [hch, hgq q hqp] at hq
              exact absurd rfl hq
            · have := c3 q hch
              rw [hgq q hqp] at this
              exact this
        · intro h1 h2
          simp only [List.length_cons] at h1
          have hstlen : (floodVisit (gridSet g p ⟨(g p).content, space⟩) w h p
              rest (if (g p).isFood = true then
                { sp with nfood := sp.nfood + 1 } else sp)).1.length
              ≤ 3 * (count + 1) + 1 := by
            have hlen := floodStep_foldl_fst_length
              (gridSet g p ⟨(g p).content, space⟩) (visitNeighbours w h p) rest
              (if (g p).isFood = true then
                { sp with nfood := sp.nfood + 1 } else sp)
            have hnb := visitNeighbours_length_le w h p
            unfold floodVisit
            omega
          refine c7 hstlen ?_
          rw [Nat.max_le]
          exact ⟨by omega, hstlen⟩

/-! ## C9: the flood fill reaches everything: if every tagged cell's
floodable neighbours are tagged or queued, the final grid is closed
under floodable adjacency and every queued floodable cell gets tagged -/

theorem floodGo_closed (w h space : Nat) (hsp : space ≠ 0) :
    ∀ (fuel : Nat) (g : Grid) (sp : SpaceState) (stack : List Coord)
      (count maxLen : Nat) (r : FloodResult),
      floodGo w h space fuel g sp stack count maxLen = some r →
      (∀ q, (g q).space ≠ 0 → ∀ z d, (z, d) ∈ visitNeighbours w h q →
        floodable g z = true → (g z).space ≠ 0 ∨ z ∈ stack) →
      (∀ q, (g q).space ≠ 0 → (r.grid q).space ≠ 0) ∧
      (∀ p ∈ stack, floodable g p = true → (r.grid p).space ≠ 0) ∧
      (∀ q, (r.grid q).space ≠ 0 → ∀ z d, (z, d) ∈ visitNeighbours w h q →
        floodable g z = true → (r.grid z).space ≠ 0) := by
  intro fuel
  induction fuel with
  | zero =>
    intro g sp stack count maxLen r heq hH
    cases stack with
    | nil =>
      simp only [floodGo, Option.some.injEq] at heq
      subst heq
      refine ⟨fun q hq => hq, fun p hp => absurd hp (List.not_mem_nil p), ?_⟩
      intro q hq z d hnb hf
      exact (hH q hq z d hnb hf).resolve_right (List.not_mem_nil z)
    | cons p rest => simp [floodGo] at heq
  | succ fuel ih =>
    intro g sp stack count maxLen r heq hH
    cases stack with
    | nil =>
      simp only [floodGo, Option.some.injEq] at heq
      subst heq
      refine ⟨fun q hq => hq, fun p hp => absurd hp (List.not_mem_nil p), ?_⟩
      intro q hq z d hnb hf
      exact (hH q hq z d hnb hf).resolve_right (List.not_mem_nil z)
    | cons p rest =>
      simp only [floodGo] at heq
      by_cases h0 : (g p).space ≠ 0
      · rw [if_pos h0] at heq
        have hH' : ∀ q, (g q).space ≠ 0 → ∀ z d, (z, d) ∈ visitNeighbours w h q →
            floodable g z = true → (g z).space ≠ 0 ∨ z ∈ rest := by
          intro q hq z d hnb hf
          rcases hH q hq z d hnb hf with ht | hz
          · exact Or.inl ht
          · rcases List.mem_cons.mp hz with rfl | hz'
            · exact Or.inl h0
            · exact Or.inr hz'
        obtain ⟨k1, k2, k3⟩ := ih g sp rest count maxLen r heq hH'
        refine ⟨k1, ?_, k3⟩
        intro p' hp' hf'
        rcases List.mem_cons.mp hp' with rfl | hp''
        · exact k1 p' h0
        · exact k2 p' hp'' hf'
      · rw [if_neg h0] at heq
        have hq0 : (g p).space = 0 := by omega
        have hgp : (gridSet g p ⟨(g p).content, space⟩) p =
            ⟨(g p).content, space⟩ := gridSet_self g p _
        have hgq : ∀ q, q ≠ p →
            (gridSet g p ⟨(g p).content, space⟩) q = g q :=
          fun q hq => gridSet_other g p _ q hq
        have hcont : ∀ q, ((gridSet g p ⟨(g p).content, space⟩) q).content =
            (g q).content := by
          intro q
          by_cases hqp : q = p
          · subst hqp
            rw [hgp]
          · rw [hgq q hqp]
        have hfld : ∀ z, floodable (gridSet g p ⟨(g p).content, space⟩) z =
            floodable g z := fun z => floodable_congr z (hcont z)
        have hup : ∀ q, (g q).space ≠ 0 →
            ((gridSet g p ⟨(g p).content, space⟩) q).space ≠ 0 := by
          intro q hq
          by_cases hqp : q = p
          · subst hqp
            rw [hgp]
            exact hsp
          · rw [hgq q hqp]
            exact hq
        have hH' : ∀ q, ((gridSet g p ⟨(g p).content, space⟩) q).space ≠ 0 →
            ∀ z d, (z, d) ∈ visitNeighbours w h q →
            floodable (gridSet g p ⟨(g p).content, space⟩) z = true →
            ((gridSet g p ⟨(g p).content, space⟩) z).space ≠ 0 ∨
              z ∈ (floodVisit (gridSet g p ⟨(g p).content, space⟩) w h p rest
                (if (g p).isFood = true then
                  { sp with nfood := sp.nfood + 1 } else sp)).1 := by
          intro q hq z d hnb hf
          rw [hfld] at hf
          by_cases hqp : q = p
          · subst hqp
            refine Or.inr ?_
            refine (floodStep_foldl_fst_mem _ _ _ _ z).mpr ?_
            exact Or.inr ⟨d, hnb, by rw [hfld]; exact hf⟩
          · rw [hgq q hqp] at hq
            rcases hH q hq z d hnb hf with ht | hz
            · exact Or.inl (hup z ht)
            · rcases List.mem_cons.mp hz with rfl | hz'
              · refine Or.inl ?_
                rw [hgp]
                exact hsp
              · refine Or.inr ?_
                exact (floodStep_foldl_fst_mem _ _ _ _ z).mpr (Or.inl hz')
        obtain ⟨k1, k2, k3⟩ := ih (gridSet g p ⟨(g p).content, space⟩) _ _
          (count + 1) _ r heq hH'
        refine ⟨?_, ?_, ?_⟩
        · intro q hq
          exact k1 q (hup q hq)
        · intro p' hp' hf'
          rcases List.mem_cons.mp hp' with rfl | hp''
          · refine k1 p' ?_
            rw [hgp]
            exact hsp
          · refine k2 p' ?_ ?_
            · exact (floodStep_foldl_fst_mem _ _ _ _ p').mpr (Or.inl hp'')
            · rw [hfld]
              exact hf'
        · intro q hq z d hnb hf
          refine k3 q hq z d hnb ?_
          rw [hfld]
          exact hf

/-! ## C9: region mapping over all candidates: tags stay within the
used ids, recorded sizes equal the tag counts, and every cell reachable
from a candidate ends up tagged -/

theorem mapStage_partition :
    ∀ (L : List MoveType) (s : GameState) (n : Nat) (acc : List MoveType)
      (s' : GameState) (out : List MoveType),
      mapStage s L n acc = some (s', out) →
      (∀ m ∈ L, InBounds s.w s.h m.c) →
      (∀ m ∈ L, floodable s.grid m.c = true) →
      (∀ q, (s.grid q).space ≤ n) →
      n ≤ 3 →
      (∀ q, (s.grid q).space ≠ 0 → ∀ z d, (z, d) ∈ visitNeighbours s.w s.h q →
        floodable s.grid z = true → (s.grid z).space ≠ 0) →
      (∀ i, 1 ≤ i → i ≤ 3 →
        (s.spaces.getD i default).size = tagCount s.grid s.w s.h i) →
      s.spaces.length = 4 →
      (∀ q, (s'.grid q).content = (s.grid q).content) ∧
      (∀ q, (s.grid q).space ≠ 0 → s'.grid q = s.grid q) ∧
      (∀ q, (s'.grid q).space ≤ 3) ∧
      (∀ i, 1 ≤ i → i ≤ 3 →
        (s'.spaces.getD i default).size = tagCount s'.grid s.w s.h i) ∧
      (∀ m ∈ L, ∀ q, Reach s.grid s.w s.h m.c q → 0 < (s'.grid q).space) := by
  intro L
  induction L with
  | nil =>
    intro s n acc s' out heq hbnd hfl hle hn3 hcl hsz hlen4
    simp only [mapStage, Option.some.injEq, Prod.mk.injEq] at heq
    obtain ⟨hs, hout⟩ := heq
    subst hs
    refine ⟨fun q => rfl, fun q _ => rfl, fun q => le_trans (hle q) hn3, hsz, ?_⟩
    intro m hm
    simp at hm
  | cons m L ih =>
    intro s n acc s' out heq hbnd hfl hle hn3 hcl hsz hlen4
    simp only [mapStage] at heq
    by_cases ht : 0 < (s.grid m.c).space
    · rw [if_pos ht] at heq
      obtain ⟨c1, c2, c3, c4, c5⟩ := ih s n _ s' out heq
        (fun m' hm' => hbnd m' (List.mem_cons_of_mem _ hm'))
        (fun m' hm' => hfl m' (List.mem_cons_of_mem _ hm'))
        hle hn3 hcl hsz hlen4
      refine ⟨c1, c2, c3, c4, ?_⟩
      intro m' hm' q hrq
      rcases List.mem_cons.mp hm' with rfl | hm''
      · have htag : ∀ q, Reach s.grid s.w s.h m'.c q → (s.grid q).space ≠ 0 := by
          intro q2 hr2
          induction hr2 with
          | base => omega
          | step hy hnb hf ihh =>
            obtain ⟨d, hd⟩ := hnb
            exact hcl _ ihh _ _ hd hf
        have hx := htag q hrq
        rw [c2 q hx]
        omega
      · exact c5 m' hm'' q hrq
    · rw [if_neg ht] at heq
      have ht0 : (s.grid m.c).space = 0 := by omega
      by_cases h4 : 4 ≤ n + 1
      · rw [if_pos h4] at heq
        exact absurd heq (by simp)
      · rw [if_neg h4] at heq
        rcases hr : MapSpace s m.c (n + 1) with _ | rr
        · rw [hr] at heq
          exact absurd heq (by simp)
        · rw [hr] at heq
          obtain ⟨g1, spb, cnt0⟩ := rr
          have heq2 : mapStage
              { s with
                grid := g1,
                spaces := s.spaces.set (n + 1)
                  { spb with
                    size := cnt0,
                    nsnakes := (spb.snakes.filter (fun b => b)).length,
                    self := ((spb.snakes.filter (fun b => b)).length == 1 &&
                      spb.snakes.headD false) } }
              L (n + 1) ({ m with space := n + 1 } :: acc) = some (s', out) := heq
          obtain ⟨r, hrun, hrg, hrsp, hrc⟩ := MapSpace_run hr
          have hmbin : ∀ q ∈ [m.c], InBounds s.w s.h q := by
            intro q hq
            rw [List.mem_singleton] at hq
            subst hq
            exact hbnd m (List.mem_cons_self _ _)
          obtain ⟨m1, m2, m3, m4, m5, m6, m7⟩ :=
            floodGo_master s.w s.h (n + 1) (by omega) (floodFuel s.w s.h)
              s.grid ⟨0, List.replicate (s.snakes.length + 1) false, 0, false, 0⟩
              [m.c] 0 1 r hmbin hrun
          obtain ⟨k1, k2, k3⟩ :=
            floodGo_closed s.w s.h (n + 1) (by omega) (floodFuel s.w s.h)
              s.grid ⟨0, List.replicate (s.snakes.length + 1) false, 0, false, 0⟩
              [m.c] 0 1 r hrun
              (fun q hq z d hnb hf => Or.inl (hcl q hq z d hnb hf))
          rw [hrg] at m1 m2 m3 m4 m6 k1 k2 k3
          rw [hrc] at m4 m6
          have htagzero : tagCount s.grid s.w s.h (n + 1) = 0 :=
            tagCount_zero_of_lt hle (by omega)
          have htag1 : tagCount g1 s.w s.h (n + 1) = cnt0 := by omega
          have hfld : ∀ z, floodable g1 z = floodable s.grid z :=
            fun z => floodable_congr z (m1 z)
          have hle1 : ∀ q, (g1 q).space ≤ n + 1 := by
            intro q
            by_cases hch : (g1 q).space = (s.grid q).space
            · rw [hch]
              exact le_trans (hle q) (by omega)
            · rw [(m3 q hch).2]
          have hcl1 : ∀ q, (g1 q).space ≠ 0 →
              ∀ z d, (z, d) ∈ visitNeighbours s.w s.h q →
              floodable g1 z = true → (g1 z).space ≠ 0 := by
            intro q hq z d hnb hf
            rw [hfld] at hf
            exact k3 q hq z d hnb hf
          have hsz1 : ∀ i, 1 ≤ i → i ≤ 3 →
              ((s.spaces.set (n + 1)
                { spb with
                  size := cnt0,
                  nsnakes := (spb.snakes.filter (fun b => b)).length,
                  self := ((spb.snakes.filter (fun b => b)).length == 1 &&
                    spb.snakes.headD false) }).getD i default).size =
                tagCount g1 s.w s.h i := by
            intro i hi1 hi3
            by_cases hin1 : i = n + 1
            · rw [hin1]
              have hgetset : (s.spaces.set (n + 1)
                  { spb with
                    size := cnt0,
                    nsnakes := (spb.snakes.filter (fun b => b)).length,
                    self := ((spb.snakes.filter (fun b => b)).length == 1 &&
                      spb.snakes.headD false) }).getD (n + 1) default =
                  { spb with
                    size := cnt0,
                    nsnakes := (spb.snakes.filter (fun b => b)).length,
                    self := ((spb.snakes.filter (fun b => b)).length == 1 &&
                      spb.snakes.headD false) } := by
                have hilen : n + 1 < s.spaces.length := by omega
                simp [List.getD_eq_getElem?_getD, List.getElem?_set_self', hilen]
              rw [hgetset, htag1]
            · have hgetne : (s.spaces.set (n + 1)
                  { spb with
                    size := cnt0,
                    nsnakes := (spb.snakes.filter (fun b => b)).length,
                    self := ((spb.snakes.filter (fun b => b)).length == 1 &&
                      spb.snakes.headD false) }).getD i default =
                  s.spaces.getD i default := by
                simp [List.getD_eq_getElem?_getD,
                  List.getElem?_set_ne (show n + 1 ≠ i from fun he => hin1 he.symm)]
              rw [hgetne, hsz i hi1 hi3]
              refine (tagCount_congr ?_).symm
              intro q
              by_cases hch : (g1 q).space = (s.grid q).space
              · rw [hch]
              · obtain ⟨hz, hnew⟩ := m3 q hch
                rw [hz, hnew]
                constructor
                · intro he
                  exact absurd he.symm hin1
                · intro he
                  omega
          obtain ⟨c1, c2, c3, c4, c5⟩ := ih _ (n + 1) _ s' out heq2
            (fun m' hm' => hbnd m' (List.mem_cons_of_mem _ hm'))
            (fun m' hm' => by
              show floodable g1 m'.c = true
              rw [hfld]
              exact hfl m' (List.mem_cons_of_mem _ hm'))
            hle1 (by omega) hcl1 hsz1 (by simpa using hlen4)
          refine ⟨?_, ?_, c3, c4, ?_⟩
          · intro q
            rw [c1 q]
            exact m1 q
          · intro q hq
            have hg1q : g1 q = s.grid q := m2 q hq
            have hq1 : (g1 q).space ≠ 0 := by
              rw [hg1q]
              exact hq
            rw [c2 q hq1]
            exact hg1q
          · intro m' hm' q hrq
            rcases List.mem_cons.mp hm' with rfl | hm''
            · have hbase : (g1 m'.c).space ≠ 0 :=
                k2 m'.c (List.mem_singleton.mpr rfl)
                  (hfl m' (List.mem_cons_self _ _))
              have htagged : ∀ q2, Reach s.grid s.w s.h m'.c q2 →
                  (g1 q2).space ≠ 0 := by
                intro q2 hr2
                induction hr2 with
                | base => exact hbase
                | step hy hnb hf ihh =>
                  obtain ⟨d, hd⟩ := hnb
                  exact k3 _ ihh _ _ hd hf
              have hx := htagged q hrq
              have hy := c2 q hx
              rw [hy]
              show 0 < (g1 q).space
              omega
            · exact c5 m' hm'' q (Reach_congr m1 hrq)

/-- C9: the flood fill terminates on every in-bounds start cell; a run
never re-tags a tagged cell and tags only previously untagged cells
with its own region id (each cell is tagged at most once per turn); the
ghost work-stack high-water mark stays within the Go allocation of four
cells per board cell; the returned count is at most `w * h`; and after
the region mapping over all candidates of a turn, every cell reachable
from a candidate through floodable cells carries exactly one region id
(a single tag in 1..3) while each region record's size equals the
number of cells carrying its tag, so no cell is counted in two
regions. -/
theorem C9_flood_termination_and_partition :
    (∀ (s : GameState) (c : Coord) (space : Nat),
      InBounds s.w s.h c → space ≠ 0 → (MapSpace s c space).isSome = true) ∧
    (∀ (s : GameState) (c : Coord) (space : Nat) (g' : Grid) (sp' : SpaceState)
       (cnt : Nat), space ≠ 0 → InBounds s.w s.h c →
      MapSpace s c space = some (g', sp', cnt) →
      (∀ q, (g' q).content = (s.grid q).content) ∧
      (∀ q, (s.grid q).space ≠ 0 → g' q = s.grid q) ∧
      (∀ q, (g' q).space ≠ (s.grid q).space →
        (s.grid q).space = 0 ∧ (g' q).space = space) ∧
      cnt ≤ s.w * s.h) ∧
    (∀ (s : GameState) (c : Coord) (space : Nat) (r : FloodResult),
      space ≠ 0 → InBounds s.w s.h c → MapSpaceRun s c space = some r →
      r.maxLen ≤ 4 * (s.w * s.h)) ∧
    (∀ (t : Nat) (b : RawBoard) (y : RawSnake) (pf : List Coord) (s : GameState)
       (own : SnakeState) (rest : List SnakeState) (s' : GameState)
       (moves2 : List MoveType),
      Initialize t b y pf = some s → s.snakes = own :: rest →
      InBounds s.w s.h own.head →
      mapStage s ((candidateMoves s own.head).map
        (annotateThreat s own.head own.length)) 0 [] = some (s', moves2) →
      (∀ m ∈ moves2, ∀ q, Reach s.grid s.w s.h m.c q →
        0 < (s'.grid q).space ∧ (s'.grid q).space ≤ 3) ∧
      (∀ i, 1 ≤ i → i ≤ 3 →
        (s'.spaces.getD i default).size = tagCount s'.grid s.w s.h i)) := by
  refine ⟨?_, ?_, ?_, ?_⟩
  · intro s c space hc hsp
    exact MapSpace_isSome s c space hc hsp
  · intro s c space g' sp' cnt hsp hc h
    obtain ⟨r, hrun, hrg, hrsp, hrc⟩ := MapSpace_run h
    obtain ⟨m1, m2, m3, m4, m5, m6, m7⟩ :=
      floodGo_master s.w s.h space hsp (floodFuel s.w s.h) s.grid
        ⟨0, List.replicate (s.snakes.length + 1) false, 0, false, 0⟩ [c] 0 1 r
        (by
          intro q hq
          rw [List.mem_singleton] at hq
          subst hq
          exact hc)
        hrun
    rw [hrg] at m1 m2 m3 m4
    rw [hrc] at m4
    refine ⟨m1, m2, m3, ?_⟩
    have := untaggedCount_le s.grid s.w s.h
    omega
  · intro s c space r hsp hc hrun
    obtain ⟨m1, m2, m3, m4, m5, m6, m7⟩ :=
      floodGo_master s.w s.h space hsp (floodFuel s.w s.h) s.grid
        ⟨0, List.replicate (s.snakes.length + 1) false, 0, false, 0⟩ [c] 0 1 r
        (by
          intro q hq
          rw [List.mem_singleton] at hq
          subst hq
          exact hc)
        hrun
    have hml := m7 (by simp) (by omega)
    have hcnt : r.count ≤ s.w * s.h := by
      have := untaggedCount_le s.grid s.w s.h
      omega
    have hw : 1 ≤ s.w := by
      obtain ⟨h1, h2, h3, h4⟩ := hc
      omega
    have hh : 1 ≤ s.h := by
      obtain ⟨h1, h2, h3, h4⟩ := hc
      omega
    have hwh : 1 ≤ s.w * s.h := by
      calc 1 = 1 * 1 := rfl
        _ ≤ s.w * s.h := Nat.mul_le_mul hw hh
    omega
  · intro t b y pf s own rest s' moves2 hs hsn hb hmap
    obtain ⟨hd, tl, hyb, hne, rfl⟩ := Initialize_char hs
    have hz : ∀ q, ((builtState t b hd pf).grid q).space = 0 :=
      builtState_space_zero t b hd pf
    have hok : ∀ q, ((builtState t b hd pf).grid q).content ≠ 2 :=
      builtState_content_ne_two t b hd pf
    have hmv : ∀ m1 ∈ (candidateMoves (builtState t b hd pf) own.head).map
        (annotateThreat (builtState t b hd pf) own.head own.length),
        InBounds (builtState t b hd pf).w (builtState t b hd pf).h m1.c ∧
        floodable (builtState t b hd pf).grid m1.c = true := by
      intro m1 hm1
      rcases List.mem_map.mp hm1 with ⟨m0, hm0, rfl⟩
      rw [(annotateThreat_preserves _ _ _ m0).2.1]
      refine ⟨candidateMoves_inbounds hb hm0, ?_⟩
      obtain ⟨nb, hnb, hbl, hform⟩ := candidateMoves_mem hm0
      have hc0 : m0.c = nb.1 := by rw [hform]
      rw [hc0]
      exact floodable_of_unblocked (hok nb.1) hbl
    have hszinit : ∀ i, 1 ≤ i → i ≤ 3 →
        (((builtState t b hd pf).spaces.getD i default)).size =
          tagCount (builtState t b hd pf).grid
            (builtState t b hd pf).w (builtState t b hd pf).h i := by
      intro i hi1 hi3
      have hrt : tagCount (builtState t b hd pf).grid
          (builtState t b hd pf).w (builtState t b hd pf).h i = 0 :=
        tagCount_zero_of_lt (fun q => Nat.le_of_eq (hz q)) (by omega)
      rw [hrt]
      have hi : i = 1 ∨ i = 2 ∨ i = 3 := by omega
      rcases hi with rfl | rfl | rfl <;> rfl
    obtain ⟨c1, c2, c3, c4, c5⟩ := mapStage_partition _ _ 0 [] s' moves2 hmap
      (fun m1 hm1 => (hmv m1 hm1).1)
      (fun m1 hm1 => (hmv m1 hm1).2)
      (fun q => Nat.le_of_eq (hz q))
      (by omega)
      (fun q hq => absurd (hz q) hq)
      hszinit
      rfl
    refine ⟨?_, c4⟩
    intro m2 hm2 q hrq
    obtain ⟨_, _, _, _, L', hout, hrel⟩ := mapStage_char _ _ _ _ _ _ hmap
    have hout' : moves2 = L' := by simpa using hout
    subst hout'
    obtain ⟨m1, hm1, hR⟩ := forall₂_mem_right hrel m2 hm2
    have hceq : m2.c = m1.c := hR.2.1
    rw [hceq] at hrq
    exact ⟨c5 m1 hm1 q hrq, c3 q⟩

-- SLOW_BEGIN
/-- Witness for C9: the flood-fill guarantees instantiated on the
`boardC3` snapshot and its single candidate cell. -/
theorem C9_flood_termination_and_partition_witness :
    (MapSpace sC3 mC3.c 1).isSome = true ∧
    ((∀ q, (msC3.1 q).content = (sC3.grid q).content) ∧
     (∀ q, (sC3.grid q).space ≠ 0 → msC3.1 q = sC3.grid q) ∧
     (∀ q, (msC3.1 q).space ≠ (sC3.grid q).space →
       (sC3.grid q).space = 0 ∧ (msC3.1 q).space = 1) ∧
     msC3.2.2 ≤ sC3.w * sC3.h) ∧
    rC3.maxLen ≤ 4 * (sC3.w * sC3.h) ∧
    ((∀ m ∈ mapC3.2, ∀ q, Reach sC3.grid sC3.w sC3.h m.c q →
       0 < (mapC3.1.grid q).space ∧ (mapC3.1.grid q).space ≤ 3) ∧
     (∀ i, 1 ≤ i → i ≤ 3 →
       (mapC3.1.spaces.getD i default).size =
         tagCount mapC3.1.grid sC3.w sC3.h i)) :=
  ⟨C9_flood_termination_and_partition.1 sC3 mC3.c 1 (by decide) (by decide),
   C9_flood_termination_and_partition.2.1 sC3 mC3.c 1 msC3.1 msC3.2.1 msC3.2.2
     (by decide) (by decide) (eq_some_getD default (by decide)),
   C9_flood_termination_and_partition.2.2.1 sC3 mC3.c 1 rC3
     (by decide) (by decide) (eq_some_getD default (by decide)),
   C9_flood_termination_and_partition.2.2.2 5 boardC3 youC3 [] sC3 ownC3
     (sC3.snakes.tail) mapC3.1 mapC3.2 (eq_some_getD default (by decide))
     (by decide) (by decide) (eq_some_getD default (by decide))⟩
-- SLOW_END

-- SLOW_BEGIN
/-! ## C5: the all-small fallback ignores threat marks -/

/-- C5 (counterexample): on `boardC5` (turn 5) exactly two candidates
remain: `left` `(1,2)`, adjacent to the head of the equal-length
`enemyC5a` (`nlonger = 1`), and `up` `(2,1)`, adjacent to no enemy head
(`nlonger = nshorter = 0`).  The claim says a threatened candidate is
never returned when an unthreatened one exists; but `up` floods into a
pocket of one cell, the all-small fallback (`main.go:712-723`) picks
the largest region over all candidates ignoring threat marks, and
`FindMove` returns the threatened `left`. -/
theorem C5_threatened_returned :
    ((Initialize 5 boardC5 youC5 []).map (fun s =>
      (candidateMoves s (s.snakes.headD default).head).map (fun m =>
        let m' := annotateThreat s (s.snakes.headD default).head
          (s.snakes.headD default).length m
        (m'.dir, m'.nlonger, m'.nshorter))))
      = some [("left", 1, 0), ("up", 0, 0)] ∧
    FindMove 5 boardC5 youC5 [] = some "left" := by decide

/-! ## C6: the opportunistic-kill return and health -/

set_option maxHeartbeats 2000000

/-- C6: the claim says the opportunistic-kill early return is taken
only when health strictly exceeds the distance to the nearest food.  On
`boardC6` our health is 1 and the nearest food is at distance 4, yet
the evolved `FindMove` returns the kill candidate `left` (whose
`nshorter = 1`): the health guard exists in the earlier iteration
(`part_000:548`) and in the comment at `main.go:544-546`, but the
evolved code (`main.go:763-766`) never reads health. -/
theorem C6_kill_ignores_health :
    youC6.health < 4 ∧
    ((Initialize 5 boardC6 youC6 []).map (fun s =>
      ((s.food.headD default).dist,
       (candidateMoves s (s.snakes.headD default).head).map (fun m =>
         let m' := annotateThreat s (s.snakes.headD default).head
           (s.snakes.headD default).length m
         (m'.dir, m'.nlonger, m'.nshorter)))))
      = some (4, [("left", 0, 1), ("right", 0, 0), ("up", 0, 0)]) ∧
    FindMove 5 boardC6 youC6 [] = some "left" := by decide

/-! ## C7: the recorded length of a snake with repeated segments -/

/-- C7 (counterexample): `youC7` has three raw body segments but only
two distinct coordinates; `Initialize` records length 2, not the raw
segment count 3 claimed (`this.length = len(this.segments)` after
de-duplication, `main.go:387`). -/
theorem C7_raw_count_not_recorded :
    youC7.body.length = 3 ∧
    ((Initialize 1 boardC7 youC7 []).map (fun s =>
      (s.snakes.headD default).length)) = some 2 := by decide

/-- C7 (amended): for every snake of every snapshot the registry entry
records the de-duplicated segment list and its length — repeated raw
coordinates collapse to a single occupancy write and do not count
toward the recorded length. -/
theorem C7_length_after_dedup {t : Nat} {b : RawBoard} {y : RawSnake}
    {pf : List Coord} {s : GameState} (hs : Initialize t b y pf = some s)
    (sn : RawSnake) (hsn : sn ∈ b.snakes) :
    ∃ e ∈ s.snakes, e.id = sn.id ∧ e.segments = dedup sn.body ∧
      e.length = (dedup sn.body).length := by
  obtain ⟨hd, tl, hyb, hne, rfl⟩ := Initialize_char hs
  refine ⟨mkSnakeState t pf hd sn, ?_, rfl, rfl, rfl⟩
  rw [builtState_snakes, sortByLt_mem]
  exact List.mem_map_of_mem _ hsn

/-- Witness for C7 (amended) at the concrete snapshot `boardC7`. -/
theorem C7_length_after_dedup_witness :
    ∃ e ∈ ((Initialize 1 boardC7 youC7 []).getD default).snakes,
      e.id = youC7.id ∧ e.segments = dedup youC7.body ∧
      e.length = (dedup youC7.body).length :=
  @C7_length_after_dedup 1 boardC7 youC7 []
    ((Initialize 1 boardC7 youC7 []).getD default) rfl youC7 (by decide)

-- SLOW_END

end SpaceySnake
